import Mathlib

/-! Repository github-bot: stream collection and the per-commit secret scan.

A verification development for `services/jamaiService.go` and
`services/prService.go`.

How the Go code is read:

* Go strings are Lean strings (sequences of Unicode characters, so only
  well-formed UTF-8 text is covered), and a Go `(value, error)` result is a
  pair whose second component is an `Option`.
* A response body is the text its reader delivers, the way the reading ends
  (end of input or a failure) and the moment the scanner meets that end
  (`Body`).  `bufio.Scanner` with `bufio.ScanLines` and its default buffer is
  modelled on that: it hands out the lines of the text one by one, stops with
  `token too long` at a line that does not fit 64 KiB, hands out the lines it
  still holds after the end was met, and reports a failure from then on.
* `encoding/json` is a recogniser for the JSON grammar together with the two
  decoding targets the repository uses: `map[string]interface{}` and the
  secret-leak struct.
* The calls that leave the repository (listing commits and files, fetching a
  commit, the HTTP call to the generation service) are functions of an
  environment (`Env`); each may depend on everything done so far.  What the
  bot does to the outside is recorded as a list of events.  The wording of
  the errors of `encoding/json` is also taken from the environment.
* `log.Fatalf` ends the process; a run records how it ended (`Exit`).
  Logging itself is not modelled.
-/

set_option autoImplicit false
set_option maxRecDepth 100000

namespace GithubBot

/-! ## Strings -/

/-- Characters of `strings.HasPrefix(s, p)`: `p` starts `s`. -/
def hasPrefix (s p : String) : Bool := p.data.isPrefixOf s.data

/-- Go `strings.TrimPrefix(s, p)`: `s` without the leading `p`, or `s` unchanged. -/
def trimPrefix (s p : String) : String :=
  if hasPrefix s p then String.mk (s.data.drop p.data.length) else s

/-- Go `strings.Contains(s, sub)`: `sub` starts some suffix of `s`. -/
def stringsContains (s sub : String) : Bool :=
  s.data.tails.any (fun t => sub.data.isPrefixOf t)

/-- Concatenation of a list of strings, left to right. -/
def concatAll : List String → String
  | [] => ""
  | s :: rest => s ++ concatAll rest

/-! ## JSON values and the grammar accepted by `encoding/json` -/

/-- A JSON document.  Numbers keep their literal; object members keep their
order of appearance, duplicates included. -/
inductive JValue where
  | null
  | bool (b : Bool)
  | number (literal : List Char)
  | string (s : String)
  | array (items : List JValue)
  | object (members : List (String × JValue))

/-- The ways `json.Unmarshal` fails: the text is not JSON, or a JSON value of
kind `value` was met where `target` (a Go type or a field of the struct) cannot
take it.  The text the library prints for an error is not part of this type;
see `Env.errorText`. -/
inductive JsonError where
  | syntaxError
  | typeMismatch (value : String) (target : String)
deriving DecidableEq, Repr

def quoteChar : Char := Char.ofNat 34

def backslashChar : Char := Char.ofNat 92

/-- JSON insignificant whitespace: space, tab, carriage return, line feed. -/
def isSpace (c : Char) : Bool :=
  c.toNat = 32 || c.toNat = 9 || c.toNat = 13 || c.toNat = 10

def isDigit (c : Char) : Bool := 48 ≤ c.toNat && c.toNat ≤ 57

def dropSpace : List Char → List Char
  | [] => []
  | c :: cs => if isSpace c then dropSpace cs else c :: cs

/-- Longest run of decimal digits at the head, and what follows it. -/
def spanDigits : List Char → List Char × List Char
  | [] => ([], [])
  | c :: cs =>
      if isDigit c then ((spanDigits cs).1.cons c, (spanDigits cs).2) else ([], c :: cs)

def hexValue (c : Char) : Option Nat :=
  if isDigit c then some (c.toNat - 48)
  else if 97 ≤ c.toNat && c.toNat ≤ 102 then some (c.toNat - 87)
  else if 65 ≤ c.toNat && c.toNat ≤ 70 then some (c.toNat - 55)
  else none

/-- Value of four hexadecimal digits, as `getu4` reads them. -/
def hexQuad (a b c d : Char) : Option Nat :=
  match hexValue a, hexValue b, hexValue c, hexValue d with
  | some x, some y, some z, some w => some (((x * 16 + y) * 16 + z) * 16 + w)
  | _, _, _, _ => none

/-- The single-character escapes of a JSON string. -/
def simpleEscape (c : Char) : Option Char :=
  if c = quoteChar then some quoteChar
  else if c = backslashChar then some backslashChar
  else if c = '/' then some '/'
  else if c = 'b' then some (Char.ofNat 8)
  else if c = 'f' then some (Char.ofNat 12)
  else if c = 'n' then some (Char.ofNat 10)
  else if c = 'r' then some (Char.ofNat 13)
  else if c = 't' then some (Char.ofNat 9)
  else none

def replacementChar : Char := Char.ofNat 65533

def isSurrogate (n : Nat) : Bool := 55296 ≤ n && n < 57344

/-- Rune written by a `\u` escape with value `hi` when the text after it is
`rest`: a high surrogate followed by an escaped low surrogate makes one rune
and uses up that second escape; any other surrogate becomes U+FFFD. -/
def unicodeEscape (hi : Nat) (rest : List Char) : Char × Bool :=
  if isSurrogate hi then
    match rest with
    | e :: u :: a :: b :: c :: d :: _ =>
        if e = backslashChar ∧ u = 'u' ∧ hi < 56320 then
          match hexQuad a b c d with
          | some lo =>
              if 56320 ≤ lo ∧ lo < 57344 then
                (Char.ofNat ((hi - 55296) * 1024 + (lo - 56320) + 65536), true)
              else (replacementChar, false)
          | none => (replacementChar, false)
        else (replacementChar, false)
    | _ => (replacementChar, false)
  else (Char.ofNat hi, false)

/-- Body of a JSON string after its opening quote: the decoded text and the
input after the closing quote.  `fuel` bounds the number of steps. -/
def scanString : Nat → List Char → List Char → Option (String × List Char)
  | 0, _, _ => none
  | _ + 1, _, [] => none
  | fuel + 1, acc, c :: cs =>
      if c = quoteChar then some (String.mk acc.reverse, cs)
      else if c = backslashChar then
        match cs with
        | [] => none
        | e :: rest =>
            if e = 'u' then
              match rest with
              | a :: b :: c2 :: d :: rest2 =>
                  match hexQuad a b c2 d with
                  | none => none
                  | some hi =>
                      if (unicodeEscape hi rest2).2 then
                        scanString fuel ((unicodeEscape hi rest2).1 :: acc) (rest2.drop 6)
                      else scanString fuel ((unicodeEscape hi rest2).1 :: acc) rest2
              | _ => none
            else
              match simpleEscape e with
              | some r => scanString fuel (r :: acc) rest
              | none => none
      else if c.toNat < 32 then none
      else scanString fuel (c :: acc) cs

/-- Optional exponent part of a number: the characters it takes and the rest. -/
def scanExponent (cs : List Char) : Option (List Char × List Char) :=
  match cs with
  | e :: rest =>
      if e = 'e' ∨ e = 'E' then
        match rest with
        | s :: rest2 =>
            if s = '+' ∨ s = '-' then
              if (spanDigits rest2).1 = [] then none
              else some (e :: s :: (spanDigits rest2).1, (spanDigits rest2).2)
            else if (spanDigits rest).1 = [] then none
            else some (e :: (spanDigits rest).1, (spanDigits rest).2)
        | [] => none
      else some ([], cs)
  | [] => some ([], cs)

/-- Optional fraction part of a number. -/
def scanFraction (cs : List Char) : Option (List Char × List Char) :=
  match cs with
  | p :: rest =>
      if p = '.' then
        if (spanDigits rest).1 = [] then none
        else some (p :: (spanDigits rest).1, (spanDigits rest).2)
      else some ([], cs)
  | [] => some ([], cs)

/-- Integer part of a number: a single zero, or a non-zero digit and more digits. -/
def scanInteger (cs : List Char) : Option (List Char × List Char) :=
  match cs with
  | d :: rest =>
      if d = '0' then some ([d], rest)
      else if isDigit d then some (d :: (spanDigits rest).1, (spanDigits rest).2)
      else none
  | [] => none

/-- A JSON number literal at the head of the input. -/
def scanNumber (cs : List Char) : Option (List Char × List Char) :=
  let signed : List Char × List Char :=
    match cs with
    | m :: rest => if m = '-' then ([m], rest) else ([], cs)
    | [] => ([], cs)
  match scanInteger signed.2 with
  | none => none
  | some (ip, r1) =>
      match scanFraction r1 with
      | none => none
      | some (fp, r2) =>
          match scanExponent r2 with
          | none => none
          | some (ep, r3) => some (signed.1 ++ ip ++ fp ++ ep, r3)

/-- Nesting limit of the library's scanner. -/
def maxNestingDepth : Nat := 10000

mutual
/-- One JSON value at the head of the input (leading whitespace allowed), at
nesting depth `depth`. -/
def parseValue : Nat → Nat → List Char → Option (JValue × List Char)
  | 0, _, _ => none
  | fuel + 1, depth, cs =>
      match dropSpace cs with
      | [] => none
      | c :: rest =>
          if c = '{' then
            if depth < maxNestingDepth then
              match dropSpace rest with
              | c2 :: rest2 =>
                  if c2 = '}' then some (JValue.object [], rest2)
                  else
                    match parseMembers fuel (depth + 1) (c2 :: rest2) with
                    | some (ms, r) => some (JValue.object ms, r)
                    | none => none
              | [] => none
            else none
          else if c = '[' then
            if depth < maxNestingDepth then
              match dropSpace rest with
              | c2 :: rest2 =>
                  if c2 = ']' then some (JValue.array [], rest2)
                  else
                    match parseElements fuel (depth + 1) (c2 :: rest2) with
                    | some (xs, r) => some (JValue.array xs, r)
                    | none => none
              | [] => none
            else none
          else if c = quoteChar then
            match scanString (rest.length + 1) [] rest with
            | some (s, r) => some (JValue.string s, r)
            | none => none
          else if c = 't' then
            if "rue".data.isPrefixOf rest then some (JValue.bool true, rest.drop 3) else none
          else if c = 'f' then
            if "alse".data.isPrefixOf rest then some (JValue.bool false, rest.drop 4) else none
          else if c = 'n' then
            if "ull".data.isPrefixOf rest then some (JValue.null, rest.drop 3) else none
          else
            match scanNumber (c :: rest) with
            | some (lit, r) => some (JValue.number lit, r)
            | none => none
/-- Elements of a non-empty array up to and including the closing bracket. -/
def parseElements : Nat → Nat → List Char → Option (List JValue × List Char)
  | 0, _, _ => none
  | fuel + 1, depth, cs =>
      match parseValue fuel depth cs with
      | none => none
      | some (v, r) =>
          match dropSpace r with
          | c :: rest =>
              if c = ',' then
                match parseElements fuel depth rest with
                | some (vs, r2) => some (v :: vs, r2)
                | none => none
              else if c = ']' then some ([v], rest)
              else none
          | [] => none
/-- Members of a non-empty object up to and including the closing brace. -/
def parseMembers : Nat → Nat → List Char → Option (List (String × JValue) × List Char)
  | 0, _, _ => none
  | fuel + 1, depth, cs =>
      match dropSpace cs with
      | q :: afterQuote =>
          if q = quoteChar then
            match scanString (afterQuote.length + 1) [] afterQuote with
            | none => none
            | some (key, r0) =>
                match dropSpace r0 with
                | colon :: r1 =>
                    if colon = ':' then
                      match parseValue fuel depth r1 with
                      | none => none
                      | some (v, r) =>
                          match dropSpace r with
                          | c :: rest =>
                              if c = ',' then
                                match parseMembers fuel depth rest with
                                | some (ms, r2) => some ((key, v) :: ms, r2)
                                | none => none
                              else if c = '}' then some ([(key, v)], rest)
                              else none
                          | [] => none
                    else none
                | [] => none
          else none
      | [] => none
end

/-- The whole text as one JSON value, as `checkValid` accepts it: a value with
whitespace around it and nothing else.  Every recursive call of the parser
follows the consumption of at least one character, so the length of the text
is enough fuel. -/
def parseJSON (text : String) : Option JValue :=
  match parseValue (text.data.length + 1) 0 text.data with
  | some (v, rest) => if dropSpace rest = [] then some v else none
  | none => none

/-! ## Decoding into Go values -/

def digitsValue (ds : List Char) : Nat :=
  ds.foldl (fun n c => n * 10 + (c.toNat - 48)) 0

/-- Digits of the fraction part of an accepted number literal, sign and
integer part already removed. -/
def fractionDigits (afterInt : List Char) : List Char :=
  match afterInt with
  | p :: rest => if p = '.' then (spanDigits rest).1 else []
  | [] => []

/-- Decimal exponent written in an accepted number literal (0 when absent). -/
def writtenExponent (afterFrac : List Char) : Int :=
  match afterFrac with
  | _ :: s :: rest =>
      if s = '-' then -Int.ofNat (digitsValue rest)
      else if s = '+' then Int.ofNat (digitsValue rest)
      else Int.ofNat (digitsValue (s :: rest))
  | _ => 0

/-- Limit of `strconv.ParseFloat(s, 64)`: a magnitude at or above
`2^1024 - 2^970` rounds to infinity and is reported as out of range. -/
def float64Limit : Nat := 2 ^ 1024 - 2 ^ 970

/-- Whether `mant * 10^e10` is out of the range of a float64. -/
def exceedsFloat64 (mant : Nat) (e10 : Int) : Bool :=
  match e10 with
  | Int.ofNat k => decide (float64Limit ≤ mant * 10 ^ k)
  | Int.negSucc k => decide (float64Limit * 10 ^ (k + 1) ≤ mant)

/-- Whether `convertNumber` accepts the literal, that is whether its value
fits a float64. -/
def numberFits (lit : List Char) : Bool :=
  let unsigned : List Char :=
    match lit with
    | m :: rest => if m = '-' then rest else lit
    | [] => lit
  let ip := (spanDigits unsigned).1
  let fp := fractionDigits (spanDigits unsigned).2
  let afterFrac := (spanDigits unsigned).2.drop (if fp = [] then 0 else fp.length + 1)
  !(exceedsFloat64 (digitsValue (ip ++ fp)) (writtenExponent afterFrac - Int.ofNat fp.length))

mutual
/-- Whether every number inside the value converts to a float64, as decoding
into `interface{}` requires. -/
def JValue.numbersFit : JValue → Bool
  | JValue.number lit => numberFits lit
  | JValue.array xs => itemsFit xs
  | JValue.object ms => membersFit ms
  | _ => true
/-- The same for the items of an array. -/
def itemsFit : List JValue → Bool
  | [] => true
  | x :: xs => x.numbersFit && itemsFit xs
/-- The same for the members of an object. -/
def membersFit : List (String × JValue) → Bool
  | [] => true
  | m :: ms => m.2.numbersFit && membersFit ms
end

/-- Name the library gives a JSON value in a type error. -/
def JValue.kindName : JValue → String
  | JValue.null => "null"
  | JValue.bool _ => "bool"
  | JValue.number _ => "number"
  | JValue.string _ => "string"
  | JValue.array _ => "array"
  | JValue.object _ => "object"

/-- Members of a decoded object, standing for a Go `map[string]interface{}`. -/
abbrev JObject := List (String × JValue)

/-- Entry of the Go map under `key`: members are stored in order of appearance,
so the last member with that key is the one found. -/
def lookupMember (members : JObject) (key : String) : Option JValue :=
  members.foldl (fun found m => if m.1 = key then some m.2 else found) none

/-- Result of `json.Unmarshal` into a nil `map[string]interface{}`: the text
must be valid JSON; `null` leaves the map nil (no entries); an object fills the
map; any other value is a type error, as is a number outside the float64
range anywhere in the object. -/
def unmarshalMap (text : String) : Except JsonError JObject :=
  match parseJSON text with
  | none => Except.error JsonError.syntaxError
  | some JValue.null => Except.ok []
  | some (JValue.object ms) =>
      if membersFit ms then Except.ok ms
      else Except.error (JsonError.typeMismatch "number" "float64")
  | some v => Except.error (JsonError.typeMismatch v.kindName "map[string]interface {}")

/-- Modelled from the spec: the declaration of `models.CreatePullReqSecretResponse`
(package `models` is not among the sources).  The secret-leak result shape is
`leak: bool, commit: string (optional), response: string`; the code reads the
fields `Leak`, `Commit` (compared with the empty string) and `Response`. -/
structure CreatePullReqSecretResponse where
  Leak : Bool
  Commit : String
  Response : String
deriving DecidableEq, Repr

/-- The zero value of the struct, as `var prSecretResponse` declares it. -/
def CreatePullReqSecretResponse.zero : CreatePullReqSecretResponse :=
  { Leak := false, Commit := "", Response := "" }

/-- The three fields of the secret-leak result, by their JSON names. -/
inductive SecretField where
  | leak
  | commit
  | response
deriving DecidableEq, Repr

def SecretField.jsonName : SecretField → String
  | SecretField.leak => "leak"
  | SecretField.commit => "commit"
  | SecretField.response => "response"

/-- Case folding used to match an object key with a field name: ASCII lower
case to upper case, the Kelvin sign to K and the long s to S. -/
def foldRune (c : Char) : Char :=
  if 97 ≤ c.toNat ∧ c.toNat ≤ 122 then Char.ofNat (c.toNat - 32)
  else if c.toNat = 8490 then 'K'
  else if c.toNat = 383 then 'S'
  else c

def equalFold (name key : String) : Bool :=
  decide (name.data.map foldRune = key.data.map foldRune)

/-- Field an object key is decoded into: the field with that name, compared
without regard to case; none for an unknown key. -/
def fieldFor (key : String) : Option SecretField :=
  if equalFold SecretField.leak.jsonName key then some SecretField.leak
  else if equalFold SecretField.commit.jsonName key then some SecretField.commit
  else if equalFold SecretField.response.jsonName key then some SecretField.response
  else none

/-- Whether a JSON value can be stored in the field: `null` always (it leaves
the field alone), otherwise a boolean for `leak` and a string for the others. -/
def SecretField.accepts : SecretField → JValue → Bool
  | _, JValue.null => true
  | SecretField.leak, JValue.bool _ => true
  | SecretField.commit, JValue.string _ => true
  | SecretField.response, JValue.string _ => true
  | _, _ => false

/-- One object member decoded into the struct.  An unknown key is skipped; a
value of the wrong type records a type error (only the first one is kept) and
decoding goes on with the next member. -/
def storeMember (st : CreatePullReqSecretResponse × Option JsonError)
    (m : String × JValue) : CreatePullReqSecretResponse × Option JsonError :=
  match fieldFor m.1 with
  | none => st
  | some f =>
      match f, m.2 with
      | _, JValue.null => st
      | SecretField.leak, JValue.bool b => ({ st.1 with Leak := b }, st.2)
      | SecretField.commit, JValue.string s => ({ st.1 with Commit := s }, st.2)
      | SecretField.response, JValue.string s => ({ st.1 with Response := s }, st.2)
      | f, v =>
          (st.1, match st.2 with
                 | some e => some e
                 | none => some (JsonError.typeMismatch v.kindName f.jsonName))

/-- Result of `json.Unmarshal` into a zero `CreatePullReqSecretResponse`. -/
def unmarshalSecretResponse (text : String) :
    CreatePullReqSecretResponse × Option JsonError :=
  match parseJSON text with
  | none => (CreatePullReqSecretResponse.zero, some JsonError.syntaxError)
  | some JValue.null => (CreatePullReqSecretResponse.zero, none)
  | some (JValue.object ms) => ms.foldl storeMember (CreatePullReqSecretResponse.zero, none)
  | some v =>
      (CreatePullReqSecretResponse.zero,
        some (JsonError.typeMismatch v.kindName "models.CreatePullReqSecretResponse"))

/-- Go `parseCreatePrSecretResponse`: the struct and the error of `json.Unmarshal`,
handed on unchanged. -/
def parseCreatePrSecretResponse (content : String) :
    CreatePullReqSecretResponse × Option JsonError :=
  match unmarshalSecretResponse content with
  | (prSecretResponse, some err) => (prSecretResponse, some err)
  | (prSecretResponse, none) => (prSecretResponse, none)

/-! ## The stream collector -/

/-- Message of `bufio.ErrTooLong`. -/
def errTooLong : String := "bufio.Scanner: token too long"

/-- Size the buffer of a scanner made by `bufio.NewScanner` grows to at most
(`bufio.MaxScanTokenSize`, 64 * 1024). -/
def maxScanTokenSize : Nat := 65536

def lineFeed : Char := Char.ofNat 10

def carriageReturn : Char := Char.ofNat 13

/-- Number of bytes of the characters in UTF-8. -/
def byteLength : List Char → Nat
  | [] => 0
  | c :: cs => c.utf8Size + byteLength cs

/-- A response body as its reader delivers it.

* `text` is all the text the reader delivers before it ends.
* `failure` says how it ends: `none` for the end of the input (`io.EOF`),
  `some err` for a read that fails with `err`.
* `metAfter` says when the scanner meets that end.  The scanner reads only
  when it holds no complete line, and a read may bring bytes and the end
  together.  When the end comes together with bytes, `metAfter` is the number
  of lines handed out before that read, and the lines handed out from then on
  are handed out with the end met.  When the end comes on a read of its own,
  after all the bytes, `metAfter` is the number of lines of the text (or any
  greater number): no line with a line feed is then handed out with the end
  met. -/
structure Body where
  text : String
  failure : Option String
  metAfter : Nat
deriving DecidableEq, Repr

/-- One line of the text as `bufio.ScanLines` cuts it: the characters before
the line feed (a carriage return before the line feed is still among them)
and whether a line feed ends the line; only the last line can lack one. -/
structure RawLine where
  bytes : List Char
  terminated : Bool
deriving DecidableEq, Repr

/-- The text cut at its line feeds, from the characters of the line begun
(`begun`, last character first) and the text still to come.  Text after the
last line feed is a last line without line feed; there is no such line when
that text is empty. -/
def splitLines : List Char → List Char → List RawLine
  | begun, [] => if begun.isEmpty then [] else [{ bytes := begun.reverse, terminated := false }]
  | begun, c :: cs =>
      if c = lineFeed then { bytes := begun.reverse, terminated := true } :: splitLines [] cs
      else splitLines (c :: begun) cs

def rawLines (text : String) : List RawLine := splitLines [] text.data

/-- Go `dropCR`: the line without one carriage return at its end. -/
def dropCR (bytes : List Char) : List Char :=
  if bytes.getLast? = some carriageReturn then bytes.dropLast else bytes

/-- The token `scanner.Text()` gives for the line. -/
def RawLine.token (raw : RawLine) : String := String.mk (dropCR raw.bytes)

/-- Whether the scanner can hand out the line.  A line with its line feed has
to lie in the buffer, so it has less than `maxScanTokenSize` bytes.  A last
line without line feed is handed out when a read reports the end: it has less
than `maxScanTokenSize` bytes, or exactly that many when the end came
together with bytes (`withBytes`); a full buffer without a line feed and
without the end met is `token too long`. -/
def RawLine.fits (raw : RawLine) (withBytes : Bool) : Bool :=
  if raw.terminated then decide (byteLength raw.bytes < maxScanTokenSize)
  else
    decide (byteLength raw.bytes < maxScanTokenSize) ||
      (withBytes && decide (byteLength raw.bytes = maxScanTokenSize))

/-- Value of `scanner.Err()` while the loop is still handing out lines: the
failure of the reader once the end of the reading is met, nothing before
(and nothing at all when the reading ends with the end of the input). -/
def scannerErr (failure : Option String) (endMet : Bool) : Option String :=
  if endMet then failure else none

/-- The two errors of `readAndCollectContent`. -/
inductive CollectError where
  | unmarshal (cause : JsonError)
  | read (cause : String)
deriving DecidableEq, Repr

/-- The loop over `choices`: every element that is an object whose `message`
is an object whose `content` is a string has that string written to the
builder. -/
def collectChoices (collected : String) : List JValue → String
  | [] => collected
  | choice :: rest =>
      match choice with
      | JValue.object choiceMap =>
          match lookupMember choiceMap "message" with
          | some (JValue.object message) =>
              match lookupMember message "content" with
              | some (JValue.string content) => collectChoices (collected ++ content) rest
              | _ => collectChoices collected rest
          | _ => collectChoices collected rest
      | _ => collectChoices collected rest

/-- What one decoded chunk adds to the builder. -/
def collectChunk (collected : String) (chunk : JObject) (outputColumn : String) : String :=
  match lookupMember chunk "output_column_name" with
  | some (JValue.string outputColumnName) =>
      if outputColumnName = outputColumn then
        match lookupMember chunk "choices" with
        | some (JValue.array choices) => collectChoices collected choices
        | _ => collected
      else collected
  | _ => collected

/-- The `for scanner.Scan()` loop with what follows it, from the number of
lines handed out so far, a builder holding `collected` and the lines of the
text still to come.

`Scan` hands out the next line when it fits the buffer and otherwise stops
with `token too long`; after the last line it stops with the end of the
reading.  A line is handed out with the end met when the end came with bytes
before (`metAfter ≤ handed`) or when the line has no line feed.  The `break`
at the terminator leads, like the end of the loop, to the test of
`scanner.Err()`. -/
def collectLines (outputColumn : String) (failure : Option String) (metAfter : Nat) :
    Nat → String → List RawLine → String × Option CollectError
  | _, collected, [] =>
      match failure with
      | some err => ("", some (CollectError.read err))
      | none => (collected, none)
  | handed, collected, raw :: rest =>
      if raw.fits (decide (metAfter ≤ handed)) then
        if hasPrefix raw.token "data: " then
          if trimPrefix raw.token "data: " = "[DONE]" then
            match scannerErr failure (decide (metAfter ≤ handed) || !raw.terminated) with
            | some err => ("", some (CollectError.read err))
            | none => (collected, none)
          else
            match unmarshalMap (trimPrefix raw.token "data: ") with
            | Except.error err => ("", some (CollectError.unmarshal err))
            | Except.ok chunk =>
                collectLines outputColumn failure metAfter (handed + 1)
                  (collectChunk collected chunk outputColumn) rest
        else collectLines outputColumn failure metAfter (handed + 1) collected rest
      else ("", some (CollectError.read errTooLong))

/-- Go `readAndCollectContent`: the collected text and the error. -/
def readAndCollectContent (resp : Body) (outputColumn : String) :
    String × Option CollectError :=
  collectLines outputColumn resp.failure resp.metAfter 0 "" (rawLines resp.text)

/-- Shape of a well-formed stream chunk as the interface description gives it:
an output column name and the message contents of its choices, in order. -/
structure Chunk where
  column : String
  contents : List String
deriving DecidableEq, Repr

/-- Content of one choice shaped `"message": ("content": string)`. -/
def choiceContent : JValue → Option String
  | JValue.object choiceMap =>
      match lookupMember choiceMap "message" with
      | some (JValue.object message) =>
          match lookupMember message "content" with
          | some (JValue.string content) => some content
          | _ => none
      | _ => none
  | _ => none

/-- Contents of a list of choices, when every one of them is well shaped. -/
def choiceContents : List JValue → Option (List String)
  | [] => some []
  | choice :: rest =>
      match choiceContent choice, choiceContents rest with
      | some c, some cs => some (c :: cs)
      | _, _ => none

/-- The chunk a decoded object stands for, when it has the shape
`"output_column_name": string, "choices": [ ("message": ("content": string)), ... ]`. -/
def chunkOf (obj : JObject) : Option Chunk :=
  match lookupMember obj "output_column_name", lookupMember obj "choices" with
  | some (JValue.string name), some (JValue.array choices) =>
      match choiceContents choices with
      | some cs => some { column := name, contents := cs }
      | none => none
  | _, _ => none

/-- The chunk written on a line payload (the line after `data: `), when the
payload decodes and has the chunk shape. -/
def decodeChunk (payload : String) : Option Chunk :=
  match unmarshalMap payload with
  | Except.ok obj => chunkOf obj
  | Except.error _ => none

/-- Aggregated text as the specification words it: the message contents of the
chunks whose column is the target, in arrival order and, within a chunk, in
list order. -/
def aggregatedText (target : String) : List Chunk → String
  | [] => ""
  | c :: rest =>
      if c.column = target then concatAll c.contents ++ aggregatedText target rest
      else aggregatedText target rest

/-- The terminator line of the stream. -/
def doneLine : String := "data: [DONE]"

/-- Lines of the text before the first terminator line. -/
def beforeDone : List RawLine → List RawLine
  | [] => []
  | raw :: rest => if raw.token = doneLine then [] else raw :: beforeDone rest

/-- Payloads of the lines that carry the data marker, in order. -/
def dataPayloads (lines : List RawLine) : List String :=
  (lines.filter (fun l => hasPrefix l.token "data: ")).map
    (fun l => trimPrefix l.token "data: ")

/-! ## Requests to the generation service -/

def BASE_URL : String := "https://api.jamaibase.com/api/v1/gen_tables"

/-- Go `models.AddRowRequest`, the body of a generation request. -/
structure AddRowRequest where
  url : String
  TableID : String
  Data : List (List (String × String))
  Stream : Bool
deriving DecidableEq, Repr

/-- What `client.Do` hands back when the call itself succeeds. -/
structure HttpResponse where
  StatusCode : Nat
  Body : Body
deriving DecidableEq, Repr

/-- The errors of `sendRequest`: the call failed, or the status is neither 200
nor 409 (the body is then read for the message). -/
inductive SendError where
  | sending (cause : String)
  | unexpectedStatus (code : Nat) (body : Body)
deriving DecidableEq, Repr

/-- Go `github.CommitFile`, as far as it is read: the filename, which the
code-hosting service always gives, and the patch, which may be absent
(`GetPatch` then yields the empty string). -/
structure CommitFile where
  Filename : String
  Patch : Option String
deriving DecidableEq, Repr

def CommitFile.GetPatch (f : CommitFile) : String :=
  match f.Patch with
  | some p => p
  | none => ""

/-- Go `github.RepositoryCommit`, as far as it is read: the SHA and the parents. -/
structure RepositoryCommit where
  SHA : String
  Parents : List String
deriving DecidableEq, Repr

/-- What the bot does to the outside, in order. -/
inductive Event where
  | getCommit (sha : String)
  | addRow (request : AddRowRequest)
  | comment (number : Int) (body : String)
deriving DecidableEq, Repr

/-- The collaborators outside the repository.  Each answer may depend on
everything the bot has done so far.  `errorText` gives the text that `%v`
prints for the error `json.Unmarshal` returns when the given text does not
decode into the secret-leak struct: the wording of the library in its
version, with the names of the struct and of its fields, none of which is
among the sources. -/
structure Env where
  listCommits : Except String (List RepositoryCommit)
  listFiles : Except String (List CommitFile)
  getCommit : List Event → String → Except String (List CommitFile)
  httpDo : List Event → AddRowRequest → Except String HttpResponse
  errorText : String → String

/-- The parameters of one review: repository, pull request number, and the two
values defined outside the sources (`utils.GetBotVersion()`, `models.ActionTable`). -/
structure Review where
  owner : String
  repo : String
  number : Int
  botVersion : String
  actionTable : String

/-- Go `sendRequest`, from the point where the request is handed to the client. -/
def sendRequest (env : Env) (history : List Event) (data : AddRowRequest) :
    Except SendError HttpResponse :=
  match env.httpDo history data with
  | Except.error err => Except.error (SendError.sending err)
  | Except.ok resp =>
      if resp.StatusCode ≠ 200 ∧ resp.StatusCode ≠ 409 then
        Except.error (SendError.unexpectedStatus resp.StatusCode resp.Body)
      else Except.ok resp

/-- The request `AddRow` builds for a table and one row of named fields. -/
def addRowRequest (tableType tableId : String) (messages : List (String × String)) :
    AddRowRequest :=
  { url := BASE_URL ++ "/" ++ tableType ++ "/rows/add"
    TableID := tableId
    Data := [messages]
    Stream := true }

/-- Go `AddRow`: the response, or the error of `sendRequest`. -/
def AddRow (env : Env) (history : List Event) (tableType tableId : String)
    (messages : List (String × String)) : Except SendError HttpResponse :=
  sendRequest env history (addRowRequest tableType tableId messages)

/-- Table identifier `owner_repo_version`. -/
def tableIdOf (r : Review) : String :=
  r.owner ++ "_" ++ r.repo ++ "_" ++ r.botVersion

/-- The loop of `getCommitDiff` over the files of a commit. -/
def diffOfFiles : List CommitFile → String
  | [] => ""
  | file :: rest =>
      if file.GetPatch ≠ "" then
        ("File: " ++ file.Filename ++ "\n" ++ file.GetPatch ++ "\n") ++ diffOfFiles rest
      else diffOfFiles rest

/-- Go `getCommitDiff`: the diff text and the error. -/
def getCommitDiff (env : Env) (history : List Event) (sha : String) :
    String × Option String :=
  match env.getCommit history sha with
  | Except.error err => ("", some err)
  | Except.ok files => (diffOfFiles files, none)

/-! ## The per-commit secret scan -/

/-- How a run ends: the function returns, or `log.Fatalf` ends the process. -/
inductive Exit where
  | returned
  | fatalAddRow (cause : SendError)
  | fatalCollect (cause : CollectError)
deriving DecidableEq, Repr

/-- A run: what was done, and how it ended. -/
structure Run where
  trace : List Event
  exit : Exit
deriving DecidableEq, Repr

/-- Prompt for one commit: its SHA and its diff. -/
def secretPrompt (sha diff : String) : String :=
  ("Commit: " ++ sha ++ "\n") ++ ("Diff:\n " ++ diff)

/-- The generation request for one commit. -/
def secretRequest (r : Review) (sha diff : String) : AddRowRequest :=
  addRowRequest r.actionTable (tableIdOf r) [("PullReqSecretsBody", secretPrompt sha diff)]

def tooLongComment (sha : String) : String :=
  "Jambo! It seems that commit " ++ sha ++
    " was too long to scan for secret leaks. Please shorten your commits next time!"

/-- The comment for a result that does not parse; `errText` is what `%v`
prints for the error. -/
def failureComment (sha : String) (errText : String) (result : String) : String :=
  "Jambo! I had issues checking commit " ++ sha ++
    " for secret leaks. Please contact my developers for more assistance! Error Message:\n " ++
    errText ++ "\nResponse: " ++ result

def leakComment (sha : String) (suggestions : CreatePullReqSecretResponse) : String :=
  if suggestions.Commit = "" then "Commit " ++ sha ++ ":\n" ++ suggestions.Response
  else "Commit " ++ suggestions.Commit ++ ":\n" ++ suggestions.Response

/-- One pass through the body of the `for _, commit := range commits` loop of
`CheckSecretKeyLeakage`, from the events so far: either the events after the
pass, when the loop goes on with the next commit, or the run that `log.Fatalf`
ended. -/
def scanCommit (r : Review) (env : Env) (trace : List Event) (commit : RepositoryCommit) :
    Except Run (List Event) :=
  if commit.Parents.length > 1 then Except.ok trace
  else
    let diff := (getCommitDiff env trace commit.SHA).1
    let fetched := trace ++ [Event.getCommit commit.SHA]
    let asked := fetched ++ [Event.addRow (secretRequest r commit.SHA diff)]
    match AddRow env fetched r.actionTable (tableIdOf r)
        [("PullReqSecretsBody", secretPrompt commit.SHA diff)] with
    | Except.error err => Except.error { trace := asked, exit := Exit.fatalAddRow err }
    | Except.ok resp =>
        match readAndCollectContent resp.Body "SecretsJSONResponse" with
        | (_, some err) => Except.error { trace := asked, exit := Exit.fatalCollect err }
        | (result, none) =>
            match parseCreatePrSecretResponse result with
            | (_, some _) =>
                if stringsContains result "ContextWindowExceededError" then
                  Except.ok (asked ++ [Event.comment r.number (tooLongComment commit.SHA)])
                else
                  Except.ok (asked ++ [Event.comment r.number
                    (failureComment commit.SHA (env.errorText result) result)])
            | (suggestions, none) =>
                if suggestions.Leak then
                  Except.ok (asked ++ [Event.comment r.number
                    (leakComment commit.SHA suggestions)])
                else Except.ok asked

/-- The loop of `CheckSecretKeyLeakage` over the commits still to visit. -/
def scanCommits (r : Review) (env : Env) : List Event → List RepositoryCommit → Run
  | trace, [] => { trace := trace, exit := Exit.returned }
  | trace, commit :: rest =>
      match scanCommit r env trace commit with
      | Except.ok after => scanCommits r env after rest
      | Except.error ended => ended

/-- Go `CheckSecretKeyLeakage`: nothing is done when the commits cannot be
listed; otherwise the commits are visited in listing order. -/
def CheckSecretKeyLeakage (r : Review) (env : Env) : Run :=
  match env.listCommits with
  | Except.error _ => { trace := [], exit := Exit.returned }
  | Except.ok commits => scanCommits r env [] commits

/-- The generation requests of a trace, in order. -/
def requestsOf : List Event → List AddRowRequest
  | [] => []
  | Event.addRow req :: rest => req :: requestsOf rest
  | _ :: rest => requestsOf rest

/-- The comment bodies of a trace, in order. -/
def commentsOf : List Event → List String
  | [] => []
  | Event.comment _ body :: rest => body :: commentsOf rest
  | _ :: rest => commentsOf rest

/-- Whether the commit is scanned: it has at most one parent. -/
def isScanned (c : RepositoryCommit) : Bool := decide (c.Parents.length ≤ 1)

/-! ## The changelog check -/

/-- The loop of `CheckChangelogUpdated` over the changed files. -/
def changesOfFiles : List CommitFile → String
  | [] => ""
  | file :: rest =>
      ("File: " ++ file.Filename ++ "\n") ++ ("Changes: " ++ file.GetPatch ++ "\n\n") ++
        changesOfFiles rest

def changelogInstruction : String :=
  "Remind the user to update their CHANGELOG.md file. Please provide suggestions for the changelog based on the following changes:\n\n"

/-- The prompt of the changelog check; both branches of the source are kept. -/
def changelogPrompt (files : List CommitFile) : String :=
  if files.any (fun file => decide (file.Filename = "CHANGELOG.md")) = false then
    changelogInstruction ++ changesOfFiles files
  else changelogInstruction ++ changesOfFiles files

/-- Go `CheckChangelogUpdated`. -/
def CheckChangelogUpdated (r : Review) (env : Env) : Run :=
  match env.listFiles with
  | Except.error _ => { trace := [], exit := Exit.returned }
  | Except.ok files =>
      let asked := [Event.addRow
        (addRowRequest r.actionTable (tableIdOf r) [("PullReqBody", changelogPrompt files)])]
      match AddRow env [] r.actionTable (tableIdOf r)
          [("PullReqBody", changelogPrompt files)] with
      | Except.error err => { trace := asked, exit := Exit.fatalAddRow err }
      | Except.ok resp =>
          match readAndCollectContent resp.Body "PullReqResponse" with
          | (_, some err) => { trace := asked, exit := Exit.fatalCollect err }
          | (suggestions, none) =>
              { trace := asked ++ [Event.comment r.number suggestions], exit := Exit.returned }

/-- Whether `json.Unmarshal` of the payload into the chunk map succeeds. -/
def decodes (payload : String) : Bool :=
  match unmarshalMap payload with
  | Except.ok _ => true
  | Except.error _ => false

/-! ## Sample data -/

/-- The text whose lines are the given ones, each with a line feed after it. -/
def joinLines : List String → String
  | [] => ""
  | line :: rest => line ++ "\n" ++ joinLines rest

/-- A chunk line for column A with the two contents "hi " and "there". -/
def lineA1 : String :=
  "data: \x7b\"output_column_name\":\"A\",\"choices\":[\x7b\"message\":\x7b\"content\":\"hi \"\x7d\x7d,\x7b\"message\":\x7b\"content\":\"there\"\x7d\x7d]\x7d"

/-- A chunk line for column B with the content "no". -/
def lineB : String :=
  "data: \x7b\"output_column_name\":\"B\",\"choices\":[\x7b\"message\":\x7b\"content\":\"no\"\x7d\x7d]\x7d"

/-- A chunk line for column A with the content "!". -/
def lineA2 : String :=
  "data: \x7b\"output_column_name\":\"A\",\"choices\":[\x7b\"message\":\x7b\"content\":\"!\"\x7d\x7d]\x7d"

/-- A line with the data marker whose payload is not JSON. -/
def lineBad : String := "data: \x7boops"

/-- A comment line of the event stream. -/
def lineKeepAlive : String := ": keep-alive"

def sampleChunks : List Chunk :=
  [{ column := "A", contents := ["hi ", "there"] },
   { column := "B", contents := ["no"] },
   { column := "A", contents := ["!"] }]

/-- A stream that ends without a terminator line. -/
def sampleStream : Body :=
  { text := joinLines [lineA1, lineKeepAlive, lineB, lineA2], failure := none, metAfter := 4 }

def sampleReview : Review :=
  { owner := "acme", repo := "widgets", number := 7, botVersion := "v1", actionTable := "action" }

/-- A commit with one parent. -/
def commitA : RepositoryCommit := { SHA := "abc123", Parents := ["p0"] }

/-- A merge commit. -/
def commitB : RepositoryCommit := { SHA := "bbb222", Parents := ["abc123", "x9"] }

/-- Another commit with one parent. -/
def commitC : RepositoryCommit := { SHA := "ccc333", Parents := ["bbb222"] }

/-- A stream whose secrets column holds a verdict with leak true, an empty
commit and the response X. -/
def leakBody : Body :=
  { text := joinLines ["data: \x7b\"output_column_name\":\"SecretsJSONResponse\",\"choices\":[\x7b\"message\":\x7b\"content\":\"\x7b\\\"leak\\\":true,\\\"commit\\\":\\\"\\\",\\\"response\\\":\\\"X\\\"\x7d\"\x7d\x7d]\x7d",
      doneLine],
    failure := none, metAfter := 2 }

/-- A stream whose secrets column holds a verdict with leak false. -/
def cleanBody : Body :=
  { text := joinLines ["data: \x7b\"output_column_name\":\"SecretsJSONResponse\",\"choices\":[\x7b\"message\":\x7b\"content\":\"\x7b\\\"leak\\\":false,\\\"commit\\\":\\\"def456\\\",\\\"response\\\":\\\"fine\\\"\x7d\"\x7d\x7d]\x7d",
      doneLine],
    failure := none, metAfter := 2 }

/-- A stream whose secrets column holds the service's error text, not a verdict. -/
def overflowBody : Body :=
  { text := joinLines ["data: \x7b\"output_column_name\":\"SecretsJSONResponse\",\"choices\":[\x7b\"message\":\x7b\"content\":\"ContextWindowExceededError: too long\"\x7d\x7d]\x7d"],
    failure := none, metAfter := 1 }

/-- A stream whose secrets column holds a text that is not JSON and does not
name the context window. -/
def garbledBody : Body :=
  { text := joinLines ["data: \x7b\"output_column_name\":\"SecretsJSONResponse\",\"choices\":[\x7b\"message\":\x7b\"content\":\"not json\"\x7d\x7d]\x7d",
      doneLine],
    failure := none, metAfter := 2 }

/-- The texts `encoding/json` prints for the two sample results that are not
JSON. -/
def sampleErrorText (text : String) : String :=
  if text = "not json" then "invalid character 'o' in literal null (expecting 'u')"
  else "invalid character 'C' looking for beginning of value"

/-- An environment listing the commits A, B (a merge) and C, in which every
generation call is answered with status 200 and the given body. -/
def envWith (body : Body) : Env :=
  { listCommits := Except.ok [commitA, commitB, commitC]
    listFiles := Except.ok []
    getCommit := fun _ _ => Except.ok [{ Filename := "main.go", Patch := some "+key" }]
    httpDo := fun _ _ => Except.ok { StatusCode := 200, Body := body }
    errorText := sampleErrorText }

/-- An environment with the same commits in which every generation call fails. -/
def envDown : Env :=
  { listCommits := Except.ok [commitA, commitB, commitC]
    listFiles := Except.ok []
    getCommit := fun _ _ => Except.ok [{ Filename := "main.go", Patch := some "+key" }]
    httpDo := fun _ _ => Except.error "connection refused"
    errorText := sampleErrorText }

/-! ## Shapes of the secret-leak result -/

/-- The secret-leak shape read strictly, as the specification words it: a JSON
object with a boolean `leak`, a string `response` and, when present, a string
`commit`; other members are not looked at. -/
def strictSecretShape (text : String) : Bool :=
  match parseJSON text with
  | some (JValue.object ms) =>
      (match lookupMember ms "leak" with
        | some (JValue.bool _) => true
        | _ => false) &&
      (match lookupMember ms "response" with
        | some (JValue.string _) => true
        | _ => false) &&
      (match lookupMember ms "commit" with
        | none => true
        | some (JValue.string _) => true
        | _ => false)
  | _ => false

/-- Whether decoding an object member raises no type error: its key names no
field, or its value can be stored in the field it names. -/
def memberAccepted (m : String × JValue) : Bool :=
  match fieldFor m.1 with
  | none => true
  | some f => f.accepts m.2

/-- The texts `json.Unmarshal` decodes into the struct without error: valid
JSON that is `null`, or an object all of whose members are accepted. -/
def lenientSecretShape (text : String) : Bool :=
  match parseJSON text with
  | some JValue.null => true
  | some (JValue.object ms) => ms.all memberAccepted
  | _ => false

/-! ## Further definitions for the fetch failure and the changelog check -/

/-- The text the changelog prompt gives one changed file. -/
def fileSection (file : CommitFile) : String :=
  ("File: " ++ file.Filename ++ "\n") ++ ("Changes: " ++ file.GetPatch ++ "\n\n")

/-- The changelog prompt as the specification words it: the fixed instruction
followed by the section of every changed file, in order. -/
def specChangelogPrompt (files : List CommitFile) : String :=
  changelogInstruction ++ concatAll (files.map fileSection)

/-- Changed files of a pull request that touches the changelog; the second
file has no patch. -/
def filesWithChangelog : List CommitFile :=
  [{ Filename := "CHANGELOG.md", Patch := some "+fixed" },
   { Filename := "logo.png", Patch := none }]

/-- Changed files of a pull request that does not touch the changelog. -/
def filesWithoutChangelog : List CommitFile :=
  [{ Filename := "main.go", Patch := some "+key" }]

/-- A stream whose suggestion column holds the text "Add an entry." in two
chunks, with a chunk of another column between them. -/
def suggestionBody : Body :=
  { text := joinLines ["data: \x7b\"output_column_name\":\"PullReqResponse\",\"choices\":[\x7b\"message\":\x7b\"content\":\"Add an \"\x7d\x7d]\x7d",
      lineB,
      "data: \x7b\"output_column_name\":\"PullReqResponse\",\"choices\":[\x7b\"message\":\x7b\"content\":\"entry.\"\x7d\x7d]\x7d",
      doneLine],
    failure := none, metAfter := 4 }

/-- An environment with the given changed files in which every generation call
is answered with status 200 and the suggestion stream. -/
def envFiles (files : List CommitFile) : Env :=
  { listCommits := Except.ok []
    listFiles := Except.ok files
    getCommit := fun _ _ => Except.ok []
    httpDo := fun _ _ => Except.ok { StatusCode := 200, Body := suggestionBody }
    errorText := sampleErrorText }

/-! ## Sample streams for the scanner -/

/-- A comment line of `n + 2` bytes: a colon, `n` letters and a full stop. -/
def longComment (n : Nat) : List Char := ':' :: (List.replicate n 'a' ++ ['.'])

/-- The chunk line A1 followed by a comment line of `n + 2` bytes; the
reading ends at the end of the input. -/
def tooLongStream (n : Nat) : Body :=
  { text := String.mk (lineA1.data ++ lineFeed :: (longComment n ++ [lineFeed]))
    failure := none
    metAfter := 2 }

/-- A comment line of `n + 2` bytes followed by a data line that is not JSON. -/
def tooLongThenBad (n : Nat) : Body :=
  { text := String.mk (longComment n ++ lineFeed :: (lineBad.data ++ [lineFeed]))
    failure := none
    metAfter := 2 }

/-- The chunk line A1 alone. -/
def shortStream : Body :=
  { text := joinLines [lineA1], failure := none, metAfter := 1 }

/-- A stream cut just after its terminator line, read to the end of the input. -/
def cutStream : Body :=
  { text := joinLines [lineA1, doneLine], failure := none, metAfter := 2 }

/-- The same stream with two more lines after the terminator, whose reader
fails on a read of its own after the four lines were handed out. -/
def lateFailureStream : Body :=
  { text := joinLines [lineA1, doneLine, lineA2, lineBad]
    failure := some "unexpected EOF"
    metAfter := 4 }

/-- The same text from a reader that reports its failure together with the
bytes: the scanner has met the failure before it hands out the first line. -/
def earlyFailureStream : Body :=
  { text := joinLines [lineA1, doneLine, lineA2, lineBad]
    failure := some "unexpected EOF"
    metAfter := 0 }

/-- A stream whose terminator line has no line feed after it and whose reader
then fails on a read of its own: the terminator is handed out with the
failure met. -/
def openDoneStream : Body :=
  { text := lineA1 ++ "\n" ++ doneLine, failure := some "unexpected EOF", metAfter := 2 }

/-- A line as `rawLines` gives it for a line with its line feed. -/
def fullLine (line : String) : RawLine := { bytes := line.data, terminated := true }

/-- A stream with a data line that is not JSON between well-formed lines. -/
def badStream : Body :=
  { text := joinLines [lineA1, lineKeepAlive, lineBad, lineA2, doneLine]
    failure := none
    metAfter := 5 }

/-- Two chunk lines for column A. -/
def pairStream : Body :=
  { text := joinLines [lineA1, lineA2], failure := none, metAfter := 2 }

/-- The same two lines with a line `[DONE]` without the data marker between
them. -/
def pairWithBareDone : Body :=
  { text := joinLines [lineA1, "[DONE]", lineA2], failure := none, metAfter := 3 }

/-! ## Facts about strings and lines -/

theorem doneLine_eq : doneLine = "data: " ++ "[DONE]" := by decide

theorem hasPrefix_doneLine : hasPrefix doneLine "data: " = true := by decide

theorem trimPrefix_doneLine : trimPrefix doneLine "data: " = "[DONE]" := by decide

/-- A line with the marker is the marker followed by its payload. -/
theorem eq_append_trimPrefix (s p : String) (h : hasPrefix s p = true) :
    s = p ++ trimPrefix s p := by
  unfold trimPrefix
  rw [if_pos h]
  unfold hasPrefix at h
  have hp := List.prefix_iff_eq_append.mp (List.isPrefixOf_iff_prefix.mp h)
  apply String.ext
  rw [String.data_append]
  exact hp.symm

/-- Only the terminator line has the marker and the payload `[DONE]`. -/
theorem trimPrefix_ne_done (line : String) (hp : hasPrefix line "data: " = true)
    (hne : line ≠ doneLine) : trimPrefix line "data: " ≠ "[DONE]" := by
  intro h
  apply hne
  rw [eq_append_trimPrefix line "data: " hp, h, doneLine_eq]

theorem collectChoices_of_contents (choices : List JValue) :
    ∀ (collected : String) (cs : List String), choiceContents choices = some cs →
      collectChoices collected choices = collected ++ concatAll cs := by
  induction choices with
  | nil =>
      intro collected cs h
      simp only [choiceContents, Option.some.injEq] at h
      subst h
      simp [collectChoices, concatAll]
  | cons choice rest ih =>
      intro collected cs h
      unfold choiceContents at h
      cases hc : choiceContent choice with
      | none => simp [hc] at h
      | some c =>
          cases hr : choiceContents rest with
          | none => simp [hc, hr] at h
          | some cs0 =>
              simp only [hc, hr, Option.some.injEq] at h
              subst h
              have hstep : collectChoices collected (choice :: rest) =
                  collectChoices (collected ++ c) rest := by
                unfold choiceContent at hc
                split at hc
                · split at hc
                  · split at hc
                    · rename_i h1 _ _ h2
                      simp only [Option.some.injEq] at hc
                      subst hc
                      simp only [collectChoices, h1, h2]
                    · simp at hc
                  · simp at hc
                · simp at hc
              rw [hstep, ih (collected ++ c) cs0 hr, concatAll, String.append_assoc]

/-- A well-shaped chunk adds its contents when its column is the target, and
nothing otherwise. -/
theorem collectChunk_of_chunk (collected : String) (obj : JObject) (target : String)
    (c : Chunk) (h : chunkOf obj = some c) :
    collectChunk collected obj target =
      if c.column = target then collected ++ concatAll c.contents else collected := by
  unfold chunkOf at h
  unfold collectChunk
  split at h
  · rename_i name choices h1 h2
    cases hcs : choiceContents choices with
    | none => simp [hcs] at h
    | some cs =>
        simp only [hcs, Option.some.injEq] at h
        subst h
        simp only [h1, h2]
        by_cases ht : name = target
        · simp only [ht, if_true]
          exact collectChoices_of_contents choices collected cs hcs
        · simp only [ht, if_false]
  · simp at h

/-! ## The scanner -/

theorem fits_of_short (raw : RawLine) (endMet : Bool) (h : byteLength raw.bytes < 65536) :
    raw.fits endMet = true := by
  unfold RawLine.fits
  have h2 : byteLength raw.bytes < maxScanTokenSize := h
  cases raw.terminated <;> simp [h2]

theorem fits_of_terminated (raw : RawLine) (a b : Bool) (h : raw.terminated = true) :
    raw.fits a = raw.fits b := by
  unfold RawLine.fits
  simp [h]

theorem byteLength_append (a b : List Char) :
    byteLength (a ++ b) = byteLength a + byteLength b := by
  induction a with
  | nil => simp [byteLength]
  | cons c rest ih => simp [byteLength, ih, Nat.add_assoc]

/-- A line whose token is the terminator has twelve or thirteen bytes. -/
theorem byteLength_of_done (raw : RawLine) (h : raw.token = doneLine) :
    byteLength raw.bytes < 65536 := by
  unfold RawLine.token at h
  have hd : dropCR raw.bytes = doneLine.data := by
    have := congrArg String.data h
    simpa using this
  unfold dropCR at hd
  split at hd
  · rename_i hl
    have hb : raw.bytes.dropLast ++ [carriageReturn] = raw.bytes :=
      List.dropLast_append_getLast? carriageReturn (by simp [hl])
    rw [← hb, hd, byteLength_append]
    decide
  · rw [hd]
    decide

/-- Every line but the last one ends with a line feed. -/
theorem splitLines_init_terminated (cs : List Char) :
    ∀ (begun : List Char) (xs : List RawLine) (y : RawLine) (ys : List RawLine),
      splitLines begun cs = xs ++ y :: ys → ∀ x ∈ xs, x.terminated = true := by
  induction cs with
  | nil =>
      intro begun xs y ys h x hx
      unfold splitLines at h
      split at h
      · cases xs <;> simp at h
      · cases xs with
        | nil => simp at hx
        | cons x0 xs0 =>
            simp only [List.cons_append, List.cons.injEq] at h
            have := h.2
            cases xs0 <;> simp at this
  | cons c rest ih =>
      intro begun xs y ys h x hx
      unfold splitLines at h
      split at h
      · cases xs with
        | nil => simp at hx
        | cons x0 xs0 =>
            simp only [List.cons_append, List.cons.injEq] at h
            cases List.mem_cons.mp hx with
            | inl hx0 =>
                rw [hx0, ← h.1]
            | inr hx0 => exact ih [] xs0 y ys h.2 x hx0
      · exact ih (c :: begun) xs y ys h x hx

theorem rawLines_init_terminated (text : String) (xs : List RawLine) (y : RawLine)
    (ys : List RawLine) (h : rawLines text = xs ++ y :: ys) : ∀ x ∈ xs, x.terminated = true :=
  splitLines_init_terminated text.data [] xs y ys h

/-- A line and its line feed at the head of the text are the first line cut. -/
theorem splitLines_line (l : List Char) :
    ∀ (begun rest : List Char), lineFeed ∉ l →
      splitLines begun (l ++ lineFeed :: rest) =
        { bytes := begun.reverse ++ l, terminated := true } :: splitLines [] rest := by
  induction l with
  | nil =>
      intro begun rest _
      simp [splitLines]
  | cons c l ih =>
      intro begun rest h
      have hc : c ≠ lineFeed := fun hc => h (by simp [hc])
      have hl : lineFeed ∉ l := fun hl => h (List.mem_cons_of_mem c hl)
      rw [List.cons_append, splitLines, if_neg hc, ih (c :: begun) rest hl]
      simp

/-! ## The stream collector: aggregation, decode errors, terminator, other lines -/

theorem collectLines_aggregates (target : String) (metAfter : Nat) (raws : List RawLine) :
    ∀ (handed : Nat) (collected : String) (chunks : List Chunk),
      (∀ raw ∈ beforeDone raws, byteLength raw.bytes < 65536) →
      List.Forall₂ (fun payload c => decodeChunk payload = some c)
        (dataPayloads (beforeDone raws)) chunks →
      collectLines target none metAfter handed collected raws =
        (collected ++ aggregatedText target chunks, none) := by
  induction raws with
  | nil =>
      intro handed collected chunks _ hwf
      simp only [beforeDone, dataPayloads, List.filter_nil, List.map_nil] at hwf
      cases hwf
      simp [collectLines, aggregatedText]
  | cons raw rest ih =>
      intro handed collected chunks hfit hwf
      by_cases hd : raw.token = doneLine
      · simp only [beforeDone, hd, if_true, dataPayloads, List.filter_nil, List.map_nil] at hwf
        cases hwf
        have hf := fits_of_short raw (decide (metAfter ≤ handed)) (byteLength_of_done raw hd)
        simp [collectLines, hf, hd, hasPrefix_doneLine, trimPrefix_doneLine, scannerErr,
          aggregatedText]
      · have hmem : raw ∈ beforeDone (raw :: rest) := by simp [beforeDone, hd]
        have hf := fits_of_short raw (decide (metAfter ≤ handed)) (hfit raw hmem)
        have hfit2 : ∀ r ∈ beforeDone rest, byteLength r.bytes < 65536 := by
          intro r hr
          exact hfit r (by simp [beforeDone, hd, hr])
        simp only [beforeDone, if_neg hd] at hwf
        by_cases hp : hasPrefix raw.token "data: " = true
        · have hnd := trimPrefix_ne_done raw.token hp hd
          simp only [dataPayloads, List.filter_cons, hp, if_true, List.map_cons] at hwf
          cases hwf with
          | cons hc htail =>
              rename_i c cs
              unfold decodeChunk at hc
              cases hu : unmarshalMap (trimPrefix raw.token "data: ") with
              | error e => simp [hu] at hc
              | ok obj =>
                  simp only [hu] at hc
                  simp only [collectLines, hf, hp, if_true, if_neg hnd, hu]
                  rw [ih _ _ cs hfit2 htail, collectChunk_of_chunk collected obj target c hc]
                  by_cases hcol : c.column = target
                  · simp only [aggregatedText, hcol, if_true, String.append_assoc]
                  · simp only [aggregatedText, hcol, if_false]
        · simp only [dataPayloads, List.filter_cons, hp, if_false] at hwf
          simp only [collectLines, hf, hp, if_true, if_false]
          simpa using ih (handed + 1) collected chunks hfit2 hwf

theorem aggregatedText_of_no_match (target : String) (chunks : List Chunk)
    (h : ∀ c ∈ chunks, c.column ≠ target) : aggregatedText target chunks = "" := by
  induction chunks with
  | nil => rfl
  | cons c rest ih =>
      have hc : c.column ≠ target := h c (List.mem_cons_self c rest)
      simp only [aggregatedText, if_neg hc]
      exact ih (fun d hd => h d (List.mem_cons_of_mem c hd))

theorem forall₂_of_map_eq (payloads : List String) :
    ∀ (chunks : List Chunk), payloads.map decodeChunk = chunks.map some →
      List.Forall₂ (fun payload c => decodeChunk payload = some c) payloads chunks := by
  induction payloads with
  | nil =>
      intro chunks h
      cases chunks with
      | nil => exact List.Forall₂.nil
      | cons c cs => simp at h
  | cons p ps ih =>
      intro chunks h
      cases chunks with
      | nil => simp at h
      | cons c cs =>
          simp only [List.map_cons, List.cons.injEq] at h
          exact List.Forall₂.cons h.1 (ih cs h.2)

/-- A malformed data line met before any terminator ends the loop with the
empty string and an error: a decode error, or `token too long` when a line up
to it does not fit. -/
theorem collectLines_malformed (target : String) (failure : Option String) (metAfter : Nat)
    (bad : RawLine) (after : List RawLine)
    (hp : hasPrefix bad.token "data: " = true)
    (hnd : trimPrefix bad.token "data: " ≠ "[DONE]")
    (hbad : ∀ obj, unmarshalMap (trimPrefix bad.token "data: ") ≠ Except.ok obj)
    (before : List RawLine) :
    ∀ (handed : Nat) (collected : String), (∀ raw ∈ before, raw.token ≠ doneLine) →
      ∃ e, collectLines target failure metAfter handed collected (before ++ bad :: after) =
          ("", some e) ∧
        (e = CollectError.read errTooLong ∨ ∃ cause, e = CollectError.unmarshal cause) ∧
        ((∀ raw ∈ before, byteLength raw.bytes < 65536) → byteLength bad.bytes < 65536 →
          ∃ cause, e = CollectError.unmarshal cause) := by
  induction before with
  | nil =>
      intro handed collected _
      by_cases hf : bad.fits (decide (metAfter ≤ handed)) = true
      · cases hu : unmarshalMap (trimPrefix bad.token "data: ") with
        | ok obj => exact absurd hu (hbad obj)
        | error e =>
            refine ⟨CollectError.unmarshal e, ?_, Or.inr ⟨e, rfl⟩, fun _ _ => ⟨e, rfl⟩⟩
            simp only [List.nil_append, collectLines, hf, hp, if_true, if_neg hnd, hu]
      · refine ⟨CollectError.read errTooLong, ?_, Or.inl rfl, fun _ hb => ?_⟩
        · simp only [List.nil_append, collectLines, hf]
          rfl
        · exact absurd (fits_of_short bad _ hb) hf
  | cons raw rest ih =>
      intro handed collected hno
      have hd : raw.token ≠ doneLine := hno raw (List.mem_cons_self raw rest)
      have hno2 : ∀ r ∈ rest, r.token ≠ doneLine :=
        fun r hr => hno r (List.mem_cons_of_mem raw hr)
      by_cases hf : raw.fits (decide (metAfter ≤ handed)) = true
      · by_cases hl : hasPrefix raw.token "data: " = true
        · have hnd2 := trimPrefix_ne_done raw.token hl hd
          cases hu : unmarshalMap (trimPrefix raw.token "data: ") with
          | error e =>
              refine ⟨CollectError.unmarshal e, ?_, Or.inr ⟨e, rfl⟩, fun _ _ => ⟨e, rfl⟩⟩
              simp only [List.cons_append, collectLines, hf, hl, if_true, if_neg hnd2, hu]
          | ok obj =>
              obtain ⟨e, he, hk, hs⟩ := ih (handed + 1) (collectChunk collected obj target) hno2
              refine ⟨e, ?_, hk, fun hb1 hb2 =>
                hs (fun r hr => hb1 r (List.mem_cons_of_mem raw hr)) hb2⟩
              simp only [List.cons_append, collectLines, hf, hl, if_true, if_neg hnd2, hu]
              exact he
        · obtain ⟨e, he, hk, hs⟩ := ih (handed + 1) collected hno2
          refine ⟨e, ?_, hk, fun hb1 hb2 =>
            hs (fun r hr => hb1 r (List.mem_cons_of_mem raw hr)) hb2⟩
          simp only [List.cons_append, collectLines, hf, hl, if_true, if_false]
          simpa using he
      · refine ⟨CollectError.read errTooLong, ?_, Or.inl rfl, fun hb1 _ => ?_⟩
        · simp only [List.cons_append, collectLines, hf]
          rfl
        · exact absurd (fits_of_short raw _ (hb1 raw (List.mem_cons_self raw rest))) hf

theorem scannerErr_quiet (failure : Option String) (metAfter handed : Nat)
    (h : failure = none ∨ handed < metAfter) :
    scannerErr failure (decide (metAfter ≤ handed) || !true) = none := by
  unfold scannerErr
  rcases h with h | h
  · simp [h]
  · have : ¬ metAfter ≤ handed := by omega
    simp [this]

/-- The lines after a complete terminator line do not matter, and neither does
the way the reading ends, as long as no failure is met when the terminator
is handed out. -/
theorem collectLines_done_cut (target : String) (f₁ f₂ : Option String) (m₁ m₂ : Nat)
    (done : RawLine) (after : List RawLine)
    (hd : done.token = doneLine) (ht : done.terminated = true) (before : List RawLine) :
    ∀ (handed : Nat) (collected : String), (∀ raw ∈ before, raw.terminated = true) →
      (f₁ = none ∨ handed + before.length < m₁) →
      (f₂ = none ∨ handed + before.length < m₂) →
      collectLines target f₁ m₁ handed collected (before ++ done :: after) =
        collectLines target f₂ m₂ handed collected (before ++ [done]) := by
  induction before with
  | nil =>
      intro handed collected _ h1 h2
      have hf1 := fits_of_short done (decide (m₁ ≤ handed)) (byteLength_of_done done hd)
      have hf2 := fits_of_short done (decide (m₂ ≤ handed)) (byteLength_of_done done hd)
      have q1 := scannerErr_quiet f₁ m₁ handed (by simpa using h1)
      have q2 := scannerErr_quiet f₂ m₂ handed (by simpa using h2)
      simp only [List.nil_append, collectLines, hf1, hf2, hd, hasPrefix_doneLine,
        trimPrefix_doneLine, if_true, ht, q1, q2]
  | cons raw rest ih =>
      intro handed collected hterm h1 h2
      have hrt : raw.terminated = true := hterm raw (List.mem_cons_self raw rest)
      have hterm2 : ∀ r ∈ rest, r.terminated = true :=
        fun r hr => hterm r (List.mem_cons_of_mem raw hr)
      have hlen : handed + (raw :: rest).length = handed + 1 + rest.length := by
        simp only [List.length_cons]
        omega
      rw [hlen] at h1 h2
      have g1 : f₁ = none ∨ handed < m₁ := by
        rcases h1 with h | h
        · exact Or.inl h
        · exact Or.inr (by omega)
      have g2 : f₂ = none ∨ handed < m₂ := by
        rcases h2 with h | h
        · exact Or.inl h
        · exact Or.inr (by omega)
      have q1 := scannerErr_quiet f₁ m₁ handed g1
      have q2 := scannerErr_quiet f₂ m₂ handed g2
      have hfe := fits_of_terminated raw (decide (m₁ ≤ handed)) (decide (m₂ ≤ handed)) hrt
      simp only [List.cons_append, collectLines, hfe, hrt, q1, q2]
      split
      · split
        · split
          · rfl
          · split
            · rfl
            · exact ih _ _ hterm2 h1 h2
        · exact ih _ _ hterm2 h1 h2
      · rfl

/-- When the terminator is handed out with a failure of the reader met, the
loop that would have ended well at the terminator ends with that failure. -/
theorem collectLines_done_met (target : String) (err : String) (f₂ : Option String)
    (m₁ m₂ : Nat) (done : RawLine) (after : List RawLine)
    (hd : done.token = doneLine) (before : List RawLine) :
    ∀ (handed : Nat) (collected : String), (∀ raw ∈ before, raw.terminated = true) →
      (∀ raw ∈ before, raw.token ≠ doneLine) →
      m₁ ≤ handed + before.length →
      (collectLines target f₂ m₂ handed collected (before ++ [done])).2 = none →
      collectLines target (some err) m₁ handed collected (before ++ done :: after) =
        ("", some (CollectError.read err)) := by
  induction before with
  | nil =>
      intro handed collected _ _ hm _
      have hf1 := fits_of_short done (decide (m₁ ≤ handed)) (byteLength_of_done done hd)
      have hf2 := fits_of_short done true (byteLength_of_done done hd)
      have hmet : m₁ ≤ handed := by simpa using hm
      simp only [List.nil_append, collectLines, hf1, hf2, hd, hasPrefix_doneLine,
        trimPrefix_doneLine, if_true, scannerErr, hmet, decide_True, Bool.true_or]
  | cons raw rest ih =>
      intro handed collected hterm hno hm hok
      have hrt : raw.terminated = true := hterm raw (List.mem_cons_self raw rest)
      have hterm2 : ∀ r ∈ rest, r.terminated = true :=
        fun r hr => hterm r (List.mem_cons_of_mem raw hr)
      have hnd : raw.token ≠ doneLine := hno raw (List.mem_cons_self raw rest)
      have hno2 : ∀ r ∈ rest, r.token ≠ doneLine :=
        fun r hr => hno r (List.mem_cons_of_mem raw hr)
      have hm2 : m₁ ≤ handed + 1 + rest.length := by
        simp only [List.length_cons] at hm
        omega
      have hfe := fits_of_terminated raw (decide (m₁ ≤ handed)) (decide (m₂ ≤ handed)) hrt
      by_cases hf : raw.fits (decide (m₂ ≤ handed)) = true
      · by_cases hp : hasPrefix raw.token "data: " = true
        · have hnd2 := trimPrefix_ne_done raw.token hp hnd
          cases hu : unmarshalMap (trimPrefix raw.token "data: ") with
          | error e =>
              simp only [List.cons_append, collectLines, hf, hp, if_true, if_neg hnd2, hu] at hok
              cases hok
          | ok obj =>
              simp only [List.cons_append, collectLines, hf, hp, if_true, if_neg hnd2, hu] at hok
              simp only [List.cons_append, collectLines, hfe, hf, hp, if_true, if_neg hnd2, hu]
              exact ih _ _ hterm2 hno2 hm2 hok
        · simp only [List.cons_append, collectLines, hf, hp, if_true, if_false] at hok
          simp only [List.cons_append, collectLines, hfe, hf, hp, if_true, if_false]
          exact ih _ _ hterm2 hno2 hm2 (by simpa using hok)
      · simp only [List.cons_append, collectLines, hf] at hok
        cases hok

/-- Counting one more line handed out, with the end met one line later, does
not change what the loop does. -/
theorem collectLines_shift (target : String) (failure : Option String) (m₁ m₂ : Nat)
    (raws : List RawLine) :
    ∀ (handed : Nat) (collected : String),
      (∀ i, handed ≤ i → (m₂ ≤ i + 1 ↔ m₁ ≤ i)) →
      collectLines target failure m₂ (handed + 1) collected raws =
        collectLines target failure m₁ handed collected raws := by
  induction raws with
  | nil =>
      intro handed collected _
      simp only [collectLines]
  | cons raw rest ih =>
      intro handed collected h
      have hflag : decide (m₂ ≤ handed + 1) = decide (m₁ ≤ handed) :=
        decide_eq_decide.mpr (h handed (Nat.le_refl handed))
      have hnext : ∀ i, handed + 1 ≤ i → (m₂ ≤ i + 1 ↔ m₁ ≤ i) :=
        fun i hi => h i (by omega)
      simp only [collectLines, hflag]
      split
      · split
        · split
          · rfl
          · split
            · rfl
            · exact ih _ _ hnext
        · exact ih _ _ hnext
      · rfl

/-- A line that fits the buffer and lacks the data marker can be put between
any two lines, the end of the reading being met at the same line. -/
theorem collectLines_skip (target : String) (failure : Option String) (m₁ m₂ : Nat)
    (line : RawLine) (after : List RawLine)
    (hshort : byteLength line.bytes < 65536)
    (hl : hasPrefix line.token "data: " = false) (before : List RawLine) :
    ∀ (handed : Nat) (collected : String),
      (∀ i, i < handed + before.length → (m₂ ≤ i ↔ m₁ ≤ i)) →
      (∀ i, handed + before.length ≤ i → (m₂ ≤ i + 1 ↔ m₁ ≤ i)) →
      collectLines target failure m₂ handed collected (before ++ line :: after) =
        collectLines target failure m₁ handed collected (before ++ after) := by
  induction before with
  | nil =>
      intro handed collected _ h2
      have hf := fits_of_short line (decide (m₂ ≤ handed)) hshort
      simp only [List.nil_append]
      rw [collectLines]
      simp only [hf, hl, if_true]
      exact collectLines_shift target failure m₁ m₂ after handed collected
        (fun i hi => h2 i (by simpa using hi))
  | cons raw rest ih =>
      intro handed collected h1 h2
      have hlen : handed + (raw :: rest).length = handed + 1 + rest.length := by
        simp only [List.length_cons]
        omega
      rw [hlen] at h1 h2
      have hflag : decide (m₂ ≤ handed) = decide (m₁ ≤ handed) :=
        decide_eq_decide.mpr (h1 handed (by omega))
      simp only [List.cons_append, collectLines, hflag]
      split
      · split
        · split
          · rfl
          · split
            · rfl
            · exact ih _ _ h1 h2
        · exact ih _ _ h1 h2
      · rfl

/-! ## Lines that do not fit the buffer -/

theorem byteLength_replicate (n : Nat) : byteLength (List.replicate n 'a') = n := by
  induction n with
  | zero => rfl
  | succ k ih =>
      rw [List.replicate_succ, byteLength, ih]
      have : 'a'.utf8Size = 1 := by decide
      omega

theorem byteLength_longComment (n : Nat) : byteLength (longComment n) = n + 2 := by
  unfold longComment
  rw [byteLength, byteLength_append, byteLength_replicate]
  have h1 : ':'.utf8Size = 1 := by decide
  have h2 : byteLength ['.'] = 1 := by decide
  omega

theorem lineFeed_not_mem_longComment (n : Nat) : lineFeed ∉ longComment n := by
  unfold longComment
  intro h
  rcases List.mem_cons.mp h with h | h
  · exact absurd h (by decide)
  · rcases List.mem_append.mp h with h | h
    · exact absurd (List.mem_replicate.mp h).2 (by decide)
    · exact absurd (List.mem_singleton.mp h) (by decide)

theorem dropCR_longComment (n : Nat) : dropCR (longComment n) = longComment n := by
  have hl : (longComment n).getLast? = some '.' := by
    unfold longComment
    rw [← List.cons_append, List.getLast?_append]
    rfl
  unfold dropCR
  rw [hl, if_neg (by decide)]

theorem hasPrefix_longComment (n : Nat) (t : Bool) :
    hasPrefix (RawLine.token { bytes := longComment n, terminated := t }) "data: " = false := by
  unfold RawLine.token hasPrefix
  simp only [dropCR_longComment]
  unfold longComment
  rfl

theorem not_fits_longComment (n : Nat) (h : 65534 ≤ n) (endMet : Bool) :
    RawLine.fits { bytes := longComment n, terminated := true } endMet = false := by
  unfold RawLine.fits
  simp only [if_true, byteLength_longComment, maxScanTokenSize]
  simp
  omega

theorem rawLines_tooLongStream (n : Nat) :
    rawLines (tooLongStream n).text =
      [fullLine lineA1, { bytes := longComment n, terminated := true }] := by
  show splitLines [] (lineA1.data ++ lineFeed :: (longComment n ++ [lineFeed])) = _
  rw [splitLines_line lineA1.data [] _ (by decide),
    splitLines_line (longComment n) [] [] (lineFeed_not_mem_longComment n)]
  rfl

theorem rawLines_tooLongThenBad (n : Nat) :
    rawLines (tooLongThenBad n).text =
      [{ bytes := longComment n, terminated := true }, fullLine lineBad] := by
  show splitLines [] (longComment n ++ lineFeed :: (lineBad.data ++ [lineFeed])) = _
  rw [splitLines_line (longComment n) [] _ (lineFeed_not_mem_longComment n),
    splitLines_line lineBad.data [] [] (by decide)]
  rfl

/-- After the chunk line A1 the scanner stops at the comment line that does not
fit its buffer, and what was collected is lost. -/
theorem collect_tooLongStream (n : Nat) (h : 65534 ≤ n) (target : String) :
    readAndCollectContent (tooLongStream n) target =
      ("", some (CollectError.read errTooLong)) := by
  unfold readAndCollectContent
  rw [rawLines_tooLongStream]
  have hf := fits_of_short (fullLine lineA1) (decide ((tooLongStream n).metAfter ≤ 0))
    (by decide)
  have hp : hasPrefix (fullLine lineA1).token "data: " = true := by decide
  have hnd : trimPrefix (fullLine lineA1).token "data: " ≠ "[DONE]" := by decide
  have hdec : decodes (trimPrefix (fullLine lineA1).token "data: ") = true := by decide
  cases hu : unmarshalMap (trimPrefix (fullLine lineA1).token "data: ") with
  | error e =>
      unfold decodes at hdec
      rw [hu] at hdec
      cases hdec
  | ok obj =>
      rw [collectLines]
      simp only [hf, hp, if_true, if_neg hnd, hu]
      rw [collectLines]
      simp only [not_fits_longComment n h]
      rfl

theorem collect_tooLongThenBad (n : Nat) (h : 65534 ≤ n) (target : String) :
    readAndCollectContent (tooLongThenBad n) target =
      ("", some (CollectError.read errTooLong)) := by
  unfold readAndCollectContent
  rw [rawLines_tooLongThenBad, collectLines]
  simp only [not_fits_longComment n h]
  rfl

/-! ## Claims on `readAndCollectContent` -/

/-- C1 (as the code has it): when the reading of the body ends at the end of
the input, every line before the first terminator line has less than 65536
bytes, and every line with the data marker before the first terminator
decodes to a well-shaped chunk, `readAndCollectContent` returns no error and
exactly the message contents of the chunks of the target column, in arrival
order and in list order within a chunk; when no chunk is for the target
column the text is empty and there is still no error. -/
theorem readAndCollectContent_aggregates (target : String) (resp : Body)
    (chunks : List Chunk)
    (hend : resp.failure = none)
    (hfit : ∀ raw ∈ beforeDone (rawLines resp.text), byteLength raw.bytes < 65536)
    (hwf : (dataPayloads (beforeDone (rawLines resp.text))).map decodeChunk =
      chunks.map some) :
    readAndCollectContent resp target = (aggregatedText target chunks, none) ∧
      ((∀ c ∈ chunks, c.column ≠ target) → readAndCollectContent resp target = ("", none)) := by
  have hmain : readAndCollectContent resp target = (aggregatedText target chunks, none) := by
    unfold readAndCollectContent
    rw [hend, collectLines_aggregates target resp.metAfter (rawLines resp.text) 0 "" chunks
      hfit (forall₂_of_map_eq _ chunks hwf), String.empty_append]
  refine ⟨hmain, fun hnone => ?_⟩
  rw [hmain, aggregatedText_of_no_match target chunks hnone]

theorem readAndCollectContent_aggregates_witness :
    (dataPayloads (beforeDone (rawLines sampleStream.text))).map decodeChunk =
        sampleChunks.map some ∧
      readAndCollectContent sampleStream "A" = (aggregatedText "A" sampleChunks, none) ∧
      aggregatedText "A" sampleChunks = "hi there!" :=
  ⟨by decide,
    (readAndCollectContent_aggregates "A" sampleStream sampleChunks rfl (by decide)
      (by decide)).1,
    by decide⟩

/-- C1 (as stated) fails: the stream of the chunk line A1 followed by a comment
line of 70002 bytes ends at the end of the input and its only data line is a
well-formed chunk for column A, yet the scanner stops at the comment line
with `token too long` and the function returns the empty string and that
error instead of the chunk's contents. -/
theorem readAndCollectContent_too_long_line :
    (tooLongStream 70000).failure = none ∧
      (dataPayloads (rawLines (tooLongStream 70000).text)).map decodeChunk =
        [some { column := "A", contents := ["hi ", "there"] }] ∧
      readAndCollectContent (tooLongStream 70000) "A" =
        ("", some (CollectError.read "bufio.Scanner: token too long")) := by
  refine ⟨rfl, ?_, collect_tooLongStream 70000 (by decide) "A"⟩
  have hp : hasPrefix (fullLine lineA1).token "data: " = true := by decide
  have hc : decodeChunk (trimPrefix (fullLine lineA1).token "data: ") =
      some { column := "A", contents := ["hi ", "there"] } := by decide
  rw [rawLines_tooLongStream]
  simp only [dataPayloads, List.filter_cons, List.filter_nil, hp, hasPrefix_longComment,
    if_true, List.map_cons, List.map_nil, hc]
  rfl

/-- C2 (as the code has it): a line with the data marker whose payload is not
`[DONE]` and does not decode, with no terminator line before it, makes
`readAndCollectContent` return the empty string together with an error,
whatever was collected from the lines before it.  The error is a decode error
when every line up to and including that line has less than 65536 bytes;
otherwise it is a decode error or the scanner's `token too long`. -/
theorem readAndCollectContent_malformed (target : String) (resp : Body)
    (before after : List RawLine) (bad : RawLine)
    (hlines : rawLines resp.text = before ++ bad :: after)
    (hno : ∀ raw ∈ before, raw.token ≠ doneLine)
    (hp : hasPrefix bad.token "data: " = true)
    (hnd : trimPrefix bad.token "data: " ≠ "[DONE]")
    (hbad : decodes (trimPrefix bad.token "data: ") = false) :
    ∃ e, readAndCollectContent resp target = ("", some e) ∧
      (e = CollectError.read "bufio.Scanner: token too long" ∨
        ∃ cause, e = CollectError.unmarshal cause) ∧
      ((∀ raw ∈ before, byteLength raw.bytes < 65536) → byteLength bad.bytes < 65536 →
        ∃ cause, e = CollectError.unmarshal cause) := by
  unfold readAndCollectContent
  rw [hlines]
  refine collectLines_malformed target resp.failure resp.metAfter bad after hp hnd ?_ before
    0 "" hno
  intro obj hobj
  unfold decodes at hbad
  rw [hobj] at hbad
  simp at hbad

theorem readAndCollectContent_malformed_witness :
    ∃ cause, readAndCollectContent badStream "A" = ("", some (CollectError.unmarshal cause)) := by
  obtain ⟨e, he, _, hs⟩ := readAndCollectContent_malformed "A" badStream
    [fullLine lineA1, fullLine lineKeepAlive] [fullLine lineA2, fullLine doneLine]
    (fullLine lineBad) (by decide) (by decide) (by decide) (by decide) (by decide)
  obtain ⟨cause, hc⟩ := hs (by decide) (by decide)
  exact ⟨cause, by rw [← hc]; exact he⟩

/-- C2 (as stated) fails: in the stream of a comment line of 70002 bytes
followed by a data line that is not JSON, with no terminator, the function
returns the scanner's `token too long`, an error of reading and not a decode
error. -/
theorem readAndCollectContent_malformed_too_long :
    rawLines (tooLongThenBad 70000).text =
        [{ bytes := longComment 70000, terminated := true }, fullLine lineBad] ∧
      hasPrefix (fullLine lineBad).token "data: " = true ∧
      trimPrefix (fullLine lineBad).token "data: " ≠ "[DONE]" ∧
      decodes (trimPrefix (fullLine lineBad).token "data: ") = false ∧
      readAndCollectContent (tooLongThenBad 70000) "A" =
        ("", some (CollectError.read "bufio.Scanner: token too long")) ∧
      ∀ cause, (readAndCollectContent (tooLongThenBad 70000) "A").2 ≠
        some (CollectError.unmarshal cause) := by
  refine ⟨rawLines_tooLongThenBad 70000, by decide, by decide, by decide,
    collect_tooLongThenBad 70000 (by decide) "A", fun cause h => ?_⟩
  rw [collect_tooLongThenBad 70000 (by decide) "A"] at h
  cases h

/-- C3 (as the code has it): for a stream with a complete terminator line and
the stream cut just after that line and read without a failure met, whatever
the lines after the terminator are: the two results are equal when the
scanner has met no failure of the reader at the moment it hands out the
terminator (the reading ends at the end of the input, or the failing read
comes after the terminator was handed out); and when a failure has been met
at that moment, the terminator is the first one and the cut stream gives no
error, the whole stream gives the empty string and that read error. -/
theorem readAndCollectContent_done_cut (target : String) (whole cut : Body)
    (before after : List RawLine) (done : RawLine)
    (hwhole : rawLines whole.text = before ++ done :: after)
    (hcut : rawLines cut.text = before ++ [done])
    (hd : done.token = doneLine) (ht : done.terminated = true)
    (hquiet : cut.failure = none ∨ before.length < cut.metAfter) :
    ((whole.failure = none ∨ before.length < whole.metAfter) →
        readAndCollectContent whole target = readAndCollectContent cut target) ∧
      ∀ err, whole.failure = some err → whole.metAfter ≤ before.length →
        (∀ raw ∈ before, raw.token ≠ doneLine) →
        (readAndCollectContent cut target).2 = none →
        readAndCollectContent whole target = ("", some (CollectError.read err)) := by
  have hterm := rawLines_init_terminated whole.text before done after hwhole
  constructor
  · intro hq
    unfold readAndCollectContent
    rw [hwhole, hcut]
    exact collectLines_done_cut target whole.failure cut.failure whole.metAfter cut.metAfter
      done after hd ht before 0 "" hterm (by simpa using hq) (by simpa using hquiet)
  · intro err hfail hmet hno hok
    unfold readAndCollectContent at hok ⊢
    rw [hcut] at hok
    rw [hwhole, hfail]
    exact collectLines_done_met target err cut.failure whole.metAfter cut.metAfter done after
      hd before 0 "" hterm hno (by simpa using hmet) hok

theorem readAndCollectContent_done_cut_witness :
    readAndCollectContent lateFailureStream "A" = readAndCollectContent cutStream "A" ∧
      readAndCollectContent cutStream "A" = ("hi there", none) ∧
      readAndCollectContent earlyFailureStream "A" =
        ("", some (CollectError.read "unexpected EOF")) :=
  ⟨(readAndCollectContent_done_cut "A" lateFailureStream cutStream [fullLine lineA1]
      [fullLine lineA2, fullLine lineBad] (fullLine doneLine) (by decide) (by decide)
      (by decide) rfl (Or.inl rfl)).1 (Or.inr (by decide)),
    by decide,
    (readAndCollectContent_done_cut "A" earlyFailureStream cutStream [fullLine lineA1]
      [fullLine lineA2, fullLine lineBad] (fullLine doneLine) (by decide) (by decide)
      (by decide) rfl (Or.inl rfl)).2 "unexpected EOF" rfl (by decide) (by decide)
      (by decide)⟩

/-- C3 (as stated) fails: the test of `scanner.Err()` follows the `break` too.
When the reader reports a failure together with the bytes that hold the
terminator, or when the terminator line has no line feed and the next read
fails, the terminator is handed out with the failure met and the function
returns the empty string and the read error, while the stream cut after the
terminator gives the collected text and no error. -/
theorem readAndCollectContent_done_then_failure :
    rawLines earlyFailureStream.text =
        rawLines cutStream.text ++ [fullLine lineA2, fullLine lineBad] ∧
      readAndCollectContent cutStream "A" = ("hi there", none) ∧
      readAndCollectContent earlyFailureStream "A" =
        ("", some (CollectError.read "unexpected EOF")) ∧
      readAndCollectContent openDoneStream "A" =
        ("", some (CollectError.read "unexpected EOF")) := by
  decide

/-- C4 (as the code has it): a line of less than 65536 bytes that does not
begin with the data marker can be put between any two lines of a stream, or
before its first or after its last line, without changing the text or the
error that `readAndCollectContent` returns, the reading ending the same way
and its end being met at the same line. -/
theorem readAndCollectContent_skip (target : String) (base longer : Body)
    (before after : List RawLine) (line : RawLine)
    (hbase : rawLines base.text = before ++ after)
    (hlonger : rawLines longer.text = before ++ line :: after)
    (hf : longer.failure = base.failure)
    (hm : longer.metAfter =
      if base.metAfter ≤ before.length then base.metAfter else base.metAfter + 1)
    (hshort : byteLength line.bytes < 65536)
    (hl : hasPrefix line.token "data: " = false) :
    readAndCollectContent longer target = readAndCollectContent base target := by
  unfold readAndCollectContent
  rw [hbase, hlonger, hf]
  refine collectLines_skip target base.failure base.metAfter longer.metAfter line after hshort
    hl before 0 "" ?_ ?_
  · intro i hi
    rw [hm]
    split <;> omega
  · intro i hi
    rw [hm]
    split <;> omega

theorem readAndCollectContent_skip_witness :
    hasPrefix (fullLine "[DONE]").token "data: " = false ∧
      readAndCollectContent pairWithBareDone "A" = readAndCollectContent pairStream "A" ∧
      readAndCollectContent pairStream "A" = ("hi there!", none) :=
  ⟨by decide,
    readAndCollectContent_skip "A" pairStream pairWithBareDone [fullLine lineA1]
      [fullLine lineA2] (fullLine "[DONE]") (by decide) (by decide) rfl (by decide)
      (by decide) (by decide),
    by decide⟩

/-- C4 (as stated) fails: putting a comment line of 70002 bytes, which does not
begin with the data marker, after the chunk line A1 turns the collected text
into the empty string and the scanner's `token too long`. -/
theorem readAndCollectContent_skip_too_long :
    rawLines (tooLongStream 70000).text =
        rawLines shortStream.text ++ [{ bytes := longComment 70000, terminated := true }] ∧
      hasPrefix (RawLine.token { bytes := longComment 70000, terminated := true }) "data: " =
        false ∧
      readAndCollectContent shortStream "A" = ("hi there", none) ∧
      readAndCollectContent (tooLongStream 70000) "A" =
        ("", some (CollectError.read "bufio.Scanner: token too long")) := by
  refine ⟨?_, hasPrefix_longComment 70000 true, by decide,
    collect_tooLongStream 70000 (by decide) "A"⟩
  rw [rawLines_tooLongStream]
  have hs : rawLines shortStream.text = [fullLine lineA1] := by decide
  rw [hs]
  rfl


/-! ## The scan loop -/

theorem requestsOf_append (a b : List Event) :
    requestsOf (a ++ b) = requestsOf a ++ requestsOf b := by
  induction a with
  | nil => rfl
  | cons e rest ih =>
      cases e <;> simp [requestsOf, ih]

theorem scanCommit_merge (r : Review) (env : Env) (trace : List Event)
    (commit : RepositoryCommit) (h : isScanned commit = false) :
    scanCommit r env trace commit = Except.ok trace := by
  have hm : commit.Parents.length > 1 := by
    unfold isScanned at h
    simp at h
    omega
  simp [scanCommit, hm]

/-- The three ways the loop body ends for a commit that is scanned: the
process is ended after the request, or the loop goes on after the request,
with or without one comment. -/
theorem scanCommit_cases (r : Review) (env : Env) (trace : List Event)
    (commit : RepositoryCommit) (h : isScanned commit = true) :
    (∃ x, x ≠ Exit.returned ∧ scanCommit r env trace commit = Except.error
        { trace := trace ++ [Event.getCommit commit.SHA, Event.addRow
            (secretRequest r commit.SHA (getCommitDiff env trace commit.SHA).1)],
          exit := x }) ∨
      scanCommit r env trace commit = Except.ok
        (trace ++ [Event.getCommit commit.SHA, Event.addRow
          (secretRequest r commit.SHA (getCommitDiff env trace commit.SHA).1)]) ∨
      ∃ body, scanCommit r env trace commit = Except.ok
        (trace ++ [Event.getCommit commit.SHA, Event.addRow
          (secretRequest r commit.SHA (getCommitDiff env trace commit.SHA).1),
          Event.comment r.number body]) := by
  have hm : ¬ commit.Parents.length > 1 := by
    unfold isScanned at h
    simp at h
    omega
  simp only [scanCommit, if_neg hm, List.append_assoc, List.singleton_append]
  split
  · exact Or.inl ⟨_, by simp, rfl⟩
  · split
    · exact Or.inl ⟨_, by simp, rfl⟩
    · split
      · split
        · exact Or.inr (Or.inr ⟨_, rfl⟩)
        · exact Or.inr (Or.inr ⟨_, rfl⟩)
      · split
        · exact Or.inr (Or.inr ⟨_, rfl⟩)
        · exact Or.inr (Or.inl rfl)

theorem scanCommit_error_exit (r : Review) (env : Env) (trace : List Event)
    (commit : RepositoryCommit) (ended : Run)
    (h : scanCommit r env trace commit = Except.error ended) : ended.exit ≠ Exit.returned := by
  cases hs : isScanned commit with
  | false => rw [scanCommit_merge r env trace commit hs] at h; cases h
  | true =>
      rcases scanCommit_cases r env trace commit hs with ⟨x, hx, he⟩ | he | ⟨b, he⟩
      · rw [he] at h
        cases h
        exact hx
      · rw [he] at h; cases h
      · rw [he] at h; cases h

/-- The loop over a listing, once its first part has been visited without the
process ending, goes on with the rest from the events reached. -/
theorem scanCommits_append (r : Review) (env : Env) (post : List RepositoryCommit)
    (pre : List RepositoryCommit) :
    ∀ (trace reached : List Event),
      scanCommits r env trace pre = { trace := reached, exit := Exit.returned } →
      scanCommits r env trace (pre ++ post) = scanCommits r env reached post := by
  induction pre with
  | nil =>
      intro trace reached h
      simp only [scanCommits, Run.mk.injEq, and_true] at h
      rw [List.nil_append, h]
  | cons c rest ih =>
      intro trace reached h
      rw [List.cons_append]
      rw [scanCommits] at h ⊢
      cases hs : scanCommit r env trace c with
      | ok after =>
          simp only [hs] at h ⊢
          exact ih after reached h
      | error ended =>
          simp only [hs] at h
          have hne := scanCommit_error_exit r env trace c ended hs
          rw [h] at hne
          exact absurd rfl hne

theorem scanCommits_trace_extends (r : Review) (env : Env) (commits : List RepositoryCommit) :
    ∀ (trace : List Event), ∃ later, (scanCommits r env trace commits).trace = trace ++ later := by
  induction commits with
  | nil =>
      intro trace
      exact ⟨[], by simp [scanCommits]⟩
  | cons c rest ih =>
      intro trace
      rw [scanCommits]
      cases hs : isScanned c with
      | false =>
          rw [scanCommit_merge r env trace c hs]
          exact ih trace
      | true =>
          rcases scanCommit_cases r env trace c hs with ⟨x, _, he⟩ | he | ⟨b, he⟩
          · rw [he]
            exact ⟨_, rfl⟩
          · rw [he]
            obtain ⟨later, hl⟩ := ih (trace ++ [Event.getCommit c.SHA, Event.addRow
              (secretRequest r c.SHA (getCommitDiff env trace c.SHA).1)])
            exact ⟨_, by rw [hl, List.append_assoc]⟩
          · rw [he]
            obtain ⟨later, hl⟩ := ih (trace ++ [Event.getCommit c.SHA, Event.addRow
              (secretRequest r c.SHA (getCommitDiff env trace c.SHA).1),
              Event.comment r.number b])
            exact ⟨_, by rw [hl, List.append_assoc]⟩

/-- Whatever the environment does, the requests a run of the loop adds are
requests for an initial part of the scanned commits, one each and in order. -/
theorem scanCommits_requests (r : Review) (env : Env) (commits : List RepositoryCommit) :
    ∀ (trace : List Event), ∃ done added,
      done <+: commits.filter isScanned ∧
      requestsOf (scanCommits r env trace commits).trace = requestsOf trace ++ added ∧
      List.Forall₂ (fun c req => ∃ diff, req = secretRequest r c.SHA diff) done added := by
  induction commits with
  | nil =>
      intro trace
      exact ⟨[], [], List.prefix_refl _, by simp [scanCommits], List.Forall₂.nil⟩
  | cons c rest ih =>
      intro trace
      rw [scanCommits]
      cases hs : isScanned c with
      | false =>
          rw [scanCommit_merge r env trace c hs]
          obtain ⟨done, added, hp, hr, hf⟩ := ih trace
          exact ⟨done, added, by simpa [List.filter_cons, hs] using hp, hr, hf⟩
      | true =>
          simp only [List.filter_cons, hs, if_true]
          rcases scanCommit_cases r env trace c hs with ⟨x, _, he⟩ | he | ⟨b, he⟩
          · rw [he]
            refine ⟨[c], [secretRequest r c.SHA (getCommitDiff env trace c.SHA).1], ?_, ?_,
              List.Forall₂.cons ⟨_, rfl⟩ List.Forall₂.nil⟩
            · exact ⟨_, rfl⟩
            · simp [requestsOf_append, requestsOf]
          · rw [he]
            obtain ⟨done, added, hp, hr, hf⟩ := ih
              (trace ++ [Event.getCommit c.SHA, Event.addRow
                (secretRequest r c.SHA (getCommitDiff env trace c.SHA).1)])
            refine ⟨c :: done, secretRequest r c.SHA (getCommitDiff env trace c.SHA).1 :: added,
              (List.prefix_cons_inj c).mpr hp, ?_, List.Forall₂.cons ⟨_, rfl⟩ hf⟩
            rw [hr]
            simp [requestsOf_append, requestsOf]
          · rw [he]
            obtain ⟨done, added, hp, hr, hf⟩ := ih
              (trace ++ [Event.getCommit c.SHA, Event.addRow
                (secretRequest r c.SHA (getCommitDiff env trace c.SHA).1),
                Event.comment r.number b])
            refine ⟨c :: done, secretRequest r c.SHA (getCommitDiff env trace c.SHA).1 :: added,
              (List.prefix_cons_inj c).mpr hp, ?_, List.Forall₂.cons ⟨_, rfl⟩ hf⟩
            rw [hr]
            simp [requestsOf_append, requestsOf]

/-- When every generation call answers with status 200 or 409 and a body that
collects without error, the loop body never ends the process. -/
theorem scanCommit_ok_of_service (r : Review) (env : Env) (trace : List Event)
    (commit : RepositoryCommit)
    (hok : ∀ history req, ∃ resp, env.httpDo history req = Except.ok resp ∧
      (resp.StatusCode = 200 ∨ resp.StatusCode = 409) ∧
      (readAndCollectContent resp.Body "SecretsJSONResponse").2 = none) :
    ∀ ended, scanCommit r env trace commit ≠ Except.error ended := by
  intro ended h
  obtain ⟨resp, hdo, hstatus, hcollect⟩ := hok (trace ++ [Event.getCommit commit.SHA])
    (secretRequest r commit.SHA (getCommitDiff env trace commit.SHA).1)
  have hsend : AddRow env (trace ++ [Event.getCommit commit.SHA]) r.actionTable (tableIdOf r)
      [("PullReqSecretsBody", secretPrompt commit.SHA (getCommitDiff env trace commit.SHA).1)] =
      Except.ok resp := by
    have hst : ¬ (resp.StatusCode ≠ 200 ∧ resp.StatusCode ≠ 409) := by
      rcases hstatus with h1 | h1 <;> simp [h1]
    unfold AddRow sendRequest
    unfold secretRequest at hdo
    rw [hdo]
    simp only [if_neg hst]
  unfold scanCommit at h
  split at h
  · cases h
  · simp only [hsend] at h
    split at h
    · rename_i e he
      rw [he] at hcollect
      simp at hcollect
    · split at h
      · split at h <;> cases h
      · split at h <;> cases h

/-- When the loop returns, its requests are those for all the scanned commits. -/
theorem scanCommits_requests_of_returned (r : Review) (env : Env)
    (commits : List RepositoryCommit) :
    ∀ (trace : List Event), (scanCommits r env trace commits).exit = Exit.returned →
      ∃ added,
        requestsOf (scanCommits r env trace commits).trace = requestsOf trace ++ added ∧
        List.Forall₂ (fun c req => ∃ diff, req = secretRequest r c.SHA diff)
          (commits.filter isScanned) added := by
  induction commits with
  | nil =>
      intro trace _
      exact ⟨[], by simp [scanCommits], List.Forall₂.nil⟩
  | cons c rest ih =>
      intro trace
      rw [scanCommits]
      cases hs : isScanned c with
      | false =>
          rw [scanCommit_merge r env trace c hs]
          intro hx
          obtain ⟨added, hr, hf⟩ := ih trace hx
          exact ⟨added, hr, by simpa [List.filter_cons, hs] using hf⟩
      | true =>
          simp only [List.filter_cons, hs, if_true]
          rcases scanCommit_cases r env trace c hs with ⟨x, hne, he⟩ | he | ⟨b, he⟩
          · rw [he]
            intro hx
            exact absurd hx hne
          · rw [he]
            intro hx
            obtain ⟨added, hr, hf⟩ := ih
              (trace ++ [Event.getCommit c.SHA, Event.addRow
                (secretRequest r c.SHA (getCommitDiff env trace c.SHA).1)]) hx
            refine ⟨secretRequest r c.SHA (getCommitDiff env trace c.SHA).1 :: added, ?_,
              List.Forall₂.cons ⟨_, rfl⟩ hf⟩
            rw [hr]
            simp [requestsOf_append, requestsOf]
          · rw [he]
            intro hx
            obtain ⟨added, hr, hf⟩ := ih
              (trace ++ [Event.getCommit c.SHA, Event.addRow
                (secretRequest r c.SHA (getCommitDiff env trace c.SHA).1),
                Event.comment r.number b]) hx
            refine ⟨secretRequest r c.SHA (getCommitDiff env trace c.SHA).1 :: added, ?_,
              List.Forall₂.cons ⟨_, rfl⟩ hf⟩
            rw [hr]
            simp [requestsOf_append, requestsOf]

/-- When every generation call is answered well, the loop returns. -/
theorem scanCommits_returns_of_service (r : Review) (env : Env)
    (hok : ∀ history req, ∃ resp, env.httpDo history req = Except.ok resp ∧
      (resp.StatusCode = 200 ∨ resp.StatusCode = 409) ∧
      (readAndCollectContent resp.Body "SecretsJSONResponse").2 = none)
    (commits : List RepositoryCommit) :
    ∀ (trace : List Event), (scanCommits r env trace commits).exit = Exit.returned := by
  induction commits with
  | nil =>
      intro trace
      rfl
  | cons c rest ih =>
      intro trace
      rw [scanCommits]
      cases hs : scanCommit r env trace c with
      | ok after => exact ih after
      | error ended => exact absurd hs (scanCommit_ok_of_service r env trace c hok ended)

/-- The run of `CheckSecretKeyLeakage` seen from a commit of the listing that
the loop reaches. -/
theorem CheckSecretKeyLeakage_at (r : Review) (env : Env)
    (pre rest : List RepositoryCommit) (commit : RepositoryCommit) (trace : List Event)
    (hlist : env.listCommits = Except.ok (pre ++ commit :: rest))
    (hreach : scanCommits r env [] pre = { trace := trace, exit := Exit.returned }) :
    CheckSecretKeyLeakage r env =
      match scanCommit r env trace commit with
      | Except.ok after => scanCommits r env after rest
      | Except.error ended => ended := by
  unfold CheckSecretKeyLeakage
  rw [hlist]
  simp only
  rw [scanCommits_append r env (commit :: rest) pre [] trace hreach, scanCommits]

/-! ## Claims on `CheckSecretKeyLeakage` -/

/-- C5: the generation requests of a run are requests for an initial part of
the listing without its merge commits, one per entry and in order, so none is
ever for a merge commit; when the run returns (no generation call and no
stream collection ended the process) its requests are those for the whole
listing without its merge commits, one per entry and in listing order,
whether or not the results parsed; and the run does return when every
generation call is answered with status 200 or 409 and a body that collects
without error. -/
theorem CheckSecretKeyLeakage_requests (r : Review) (env : Env)
    (commits : List RepositoryCommit) (hlist : env.listCommits = Except.ok commits) :
    (∃ done, done <+: commits.filter isScanned ∧
        List.Forall₂ (fun c req => ∃ diff, req = secretRequest r c.SHA diff) done
          (requestsOf (CheckSecretKeyLeakage r env).trace)) ∧
      ((CheckSecretKeyLeakage r env).exit = Exit.returned →
        List.Forall₂ (fun c req => ∃ diff, req = secretRequest r c.SHA diff)
          (commits.filter isScanned) (requestsOf (CheckSecretKeyLeakage r env).trace)) ∧
      ((∀ history req, ∃ resp, env.httpDo history req = Except.ok resp ∧
          (resp.StatusCode = 200 ∨ resp.StatusCode = 409) ∧
          (readAndCollectContent resp.Body "SecretsJSONResponse").2 = none) →
        (CheckSecretKeyLeakage r env).exit = Exit.returned) := by
  have hrun : CheckSecretKeyLeakage r env = scanCommits r env [] commits := by
    unfold CheckSecretKeyLeakage
    rw [hlist]
  rw [hrun]
  refine ⟨?_, fun hx => ?_, fun hok => scanCommits_returns_of_service r env hok commits []⟩
  · obtain ⟨done, added, hp, hr, hf⟩ := scanCommits_requests r env commits []
    refine ⟨done, hp, ?_⟩
    rw [hr]
    simpa [requestsOf] using hf
  · obtain ⟨added, hr, hf⟩ := scanCommits_requests_of_returned r env commits [] hx
    rw [hr]
    simpa [requestsOf] using hf

theorem CheckSecretKeyLeakage_requests_witness :
    ((CheckSecretKeyLeakage sampleReview (envWith overflowBody)).exit = Exit.returned ∧
      List.Forall₂ (fun c req => ∃ diff, req = secretRequest sampleReview c.SHA diff)
        ([commitA, commitB, commitC].filter isScanned)
        (requestsOf (CheckSecretKeyLeakage sampleReview (envWith overflowBody)).trace)) ∧
      [commitA, commitB, commitC].filter isScanned = [commitA, commitC] ∧
      requestsOf (CheckSecretKeyLeakage sampleReview (envWith overflowBody)).trace =
        [secretRequest sampleReview "abc123" "File: main.go\n+key\n",
         secretRequest sampleReview "ccc333" "File: main.go\n+key\n"] :=
  ⟨⟨(CheckSecretKeyLeakage_requests sampleReview (envWith overflowBody)
        [commitA, commitB, commitC] rfl).2.2
        (fun _ _ => ⟨{ StatusCode := 200, Body := overflowBody }, rfl, Or.inl rfl, by decide⟩),
      (CheckSecretKeyLeakage_requests sampleReview (envWith overflowBody)
        [commitA, commitB, commitC] rfl).2.1 (by decide)⟩,
    by decide, by decide⟩

/-- C6: when the loop reaches a commit with at most one parent, the generation
call succeeds, the stream collects to a text and the text parses to a verdict
with leak true, the run posts, right after the request, one comment with the
body `Commit <id>:` followed by a line break and the verdict's response, where
`<id>` is the verdict's commit when it is not empty and the SHA of the commit
being scanned when it is, and goes on with the next commit. -/
theorem CheckSecretKeyLeakage_leak_comment (r : Review) (env : Env)
    (pre rest : List RepositoryCommit) (commit : RepositoryCommit) (trace : List Event)
    (resp : HttpResponse) (result : String) (suggestions : CreatePullReqSecretResponse)
    (hlist : env.listCommits = Except.ok (pre ++ commit :: rest))
    (hreach : scanCommits r env [] pre = { trace := trace, exit := Exit.returned })
    (hscan : commit.Parents.length ≤ 1)
    (hgen : AddRow env (trace ++ [Event.getCommit commit.SHA]) r.actionTable (tableIdOf r)
      [("PullReqSecretsBody", secretPrompt commit.SHA (getCommitDiff env trace commit.SHA).1)] =
        Except.ok resp)
    (hcollect : readAndCollectContent resp.Body "SecretsJSONResponse" = (result, none))
    (hparse : parseCreatePrSecretResponse result = (suggestions, none))
    (hleak : suggestions.Leak = true) :
    CheckSecretKeyLeakage r env =
      scanCommits r env
        (trace ++ [Event.getCommit commit.SHA,
          Event.addRow (secretRequest r commit.SHA (getCommitDiff env trace commit.SHA).1),
          Event.comment r.number
            ("Commit " ++ (if suggestions.Commit = "" then commit.SHA else suggestions.Commit) ++
              ":\n" ++ suggestions.Response)]) rest ∧
      ∃ later, (CheckSecretKeyLeakage r env).trace =
        (trace ++ [Event.getCommit commit.SHA,
          Event.addRow (secretRequest r commit.SHA (getCommitDiff env trace commit.SHA).1),
          Event.comment r.number
            ("Commit " ++ (if suggestions.Commit = "" then commit.SHA else suggestions.Commit) ++
              ":\n" ++ suggestions.Response)]) ++ later := by
  have hrun : CheckSecretKeyLeakage r env =
      scanCommits r env
        (trace ++ [Event.getCommit commit.SHA,
          Event.addRow (secretRequest r commit.SHA (getCommitDiff env trace commit.SHA).1),
          Event.comment r.number
            ("Commit " ++ (if suggestions.Commit = "" then commit.SHA else suggestions.Commit) ++
              ":\n" ++ suggestions.Response)]) rest := by
    rw [CheckSecretKeyLeakage_at r env pre rest commit trace hlist hreach]
    have hm : ¬ commit.Parents.length > 1 := by omega
    simp only [scanCommit, if_neg hm, hgen, hcollect, hparse, hleak, if_true, leakComment,
      List.append_assoc, List.singleton_append, List.nil_append]
    by_cases hc : suggestions.Commit = "" <;> simp only [hc, if_true, if_false] <;> rfl
  refine ⟨hrun, ?_⟩
  rw [hrun]
  exact scanCommits_trace_extends r env rest _

theorem CheckSecretKeyLeakage_leak_comment_witness :
    CheckSecretKeyLeakage sampleReview (envWith leakBody) =
      scanCommits sampleReview (envWith leakBody)
        ([] ++ [Event.getCommit commitA.SHA,
          Event.addRow (secretRequest sampleReview commitA.SHA
            (getCommitDiff (envWith leakBody) [] commitA.SHA).1),
          Event.comment sampleReview.number
            ("Commit " ++
              (if ({ Leak := true, Commit := "", Response := "X" } :
                  CreatePullReqSecretResponse).Commit = "" then commitA.SHA
                else ({ Leak := true, Commit := "", Response := "X" } :
                  CreatePullReqSecretResponse).Commit) ++
              ":\n" ++ ({ Leak := true, Commit := "", Response := "X" } :
                  CreatePullReqSecretResponse).Response)]) [commitB, commitC] ∧
      commentsOf (CheckSecretKeyLeakage sampleReview (envWith leakBody)).trace =
        ["Commit abc123:\nX", "Commit ccc333:\nX"] :=
  ⟨(CheckSecretKeyLeakage_leak_comment sampleReview (envWith leakBody) [] [commitB, commitC]
      commitA [] { StatusCode := 200, Body := leakBody }
      "\x7b\"leak\":true,\"commit\":\"\",\"response\":\"X\"\x7d"
      { Leak := true, Commit := "", Response := "X" }
      rfl rfl (by decide) rfl (by decide) (by decide) rfl).1,
    by decide⟩

/-- C7: when the loop reaches a commit with at most one parent, the generation
call succeeds, the stream collects to a text and the text parses to a verdict
with leak false, the run posts no comment for the commit, whatever the
verdict's commit and response are: after the request it goes on with the next
commit. -/
theorem CheckSecretKeyLeakage_no_leak_silent (r : Review) (env : Env)
    (pre rest : List RepositoryCommit) (commit : RepositoryCommit) (trace : List Event)
    (resp : HttpResponse) (result : String) (suggestions : CreatePullReqSecretResponse)
    (hlist : env.listCommits = Except.ok (pre ++ commit :: rest))
    (hreach : scanCommits r env [] pre = { trace := trace, exit := Exit.returned })
    (hscan : commit.Parents.length ≤ 1)
    (hgen : AddRow env (trace ++ [Event.getCommit commit.SHA]) r.actionTable (tableIdOf r)
      [("PullReqSecretsBody", secretPrompt commit.SHA (getCommitDiff env trace commit.SHA).1)] =
        Except.ok resp)
    (hcollect : readAndCollectContent resp.Body "SecretsJSONResponse" = (result, none))
    (hparse : parseCreatePrSecretResponse result = (suggestions, none))
    (hleak : suggestions.Leak = false) :
    CheckSecretKeyLeakage r env =
      scanCommits r env
        (trace ++ [Event.getCommit commit.SHA,
          Event.addRow (secretRequest r commit.SHA (getCommitDiff env trace commit.SHA).1)])
        rest := by
  rw [CheckSecretKeyLeakage_at r env pre rest commit trace hlist hreach]
  have hm : ¬ commit.Parents.length > 1 := by omega
  simp only [scanCommit, if_neg hm, hgen, hcollect, hparse, hleak, List.append_assoc,
    List.singleton_append, List.nil_append]
  rfl

theorem CheckSecretKeyLeakage_no_leak_silent_witness :
    CheckSecretKeyLeakage sampleReview (envWith cleanBody) =
      scanCommits sampleReview (envWith cleanBody)
        ([] ++ [Event.getCommit commitA.SHA,
          Event.addRow (secretRequest sampleReview commitA.SHA
            (getCommitDiff (envWith cleanBody) [] commitA.SHA).1)])
        [commitB, commitC] ∧
      commentsOf (CheckSecretKeyLeakage sampleReview (envWith cleanBody)).trace = [] :=
  ⟨CheckSecretKeyLeakage_no_leak_silent sampleReview (envWith cleanBody) [] [commitB, commitC]
      commitA [] { StatusCode := 200, Body := cleanBody }
      "\x7b\"leak\":false,\"commit\":\"def456\",\"response\":\"fine\"\x7d"
      { Leak := false, Commit := "def456", Response := "fine" }
      rfl rfl (by decide) rfl (by decide) (by decide) rfl,
    by decide⟩

/-- C8: when the loop reaches a commit with at most one parent, the generation
call succeeds, the stream collects to a text and the text fails to parse as a
verdict, the run posts exactly one comment for the commit and goes on with the
next commit.  When the text contains `ContextWindowExceededError` the comment
is the too-long message, which names the SHA and nothing of the text;
otherwise it is the failure message with the SHA, the text that the library
prints for the decode error (`env.errorText` of the collected text) and the
collected text. -/
theorem CheckSecretKeyLeakage_parse_failure (r : Review) (env : Env)
    (pre rest : List RepositoryCommit) (commit : RepositoryCommit) (trace : List Event)
    (resp : HttpResponse) (result : String) (decoded : CreatePullReqSecretResponse)
    (err : JsonError)
    (hlist : env.listCommits = Except.ok (pre ++ commit :: rest))
    (hreach : scanCommits r env [] pre = { trace := trace, exit := Exit.returned })
    (hscan : commit.Parents.length ≤ 1)
    (hgen : AddRow env (trace ++ [Event.getCommit commit.SHA]) r.actionTable (tableIdOf r)
      [("PullReqSecretsBody", secretPrompt commit.SHA (getCommitDiff env trace commit.SHA).1)] =
        Except.ok resp)
    (hcollect : readAndCollectContent resp.Body "SecretsJSONResponse" = (result, none))
    (hparse : parseCreatePrSecretResponse result = (decoded, some err)) :
    CheckSecretKeyLeakage r env =
      scanCommits r env
        (trace ++ [Event.getCommit commit.SHA,
          Event.addRow (secretRequest r commit.SHA (getCommitDiff env trace commit.SHA).1),
          Event.comment r.number
            (if stringsContains result "ContextWindowExceededError" = true then
              "Jambo! It seems that commit " ++ commit.SHA ++
                " was too long to scan for secret leaks. Please shorten your commits next time!"
            else
              "Jambo! I had issues checking commit " ++ commit.SHA ++
                " for secret leaks. Please contact my developers for more assistance! Error Message:\n " ++
                env.errorText result ++ "\nResponse: " ++ result)]) rest ∧
      ∃ later, (CheckSecretKeyLeakage r env).trace =
        (trace ++ [Event.getCommit commit.SHA,
          Event.addRow (secretRequest r commit.SHA (getCommitDiff env trace commit.SHA).1),
          Event.comment r.number
            (if stringsContains result "ContextWindowExceededError" = true then
              "Jambo! It seems that commit " ++ commit.SHA ++
                " was too long to scan for secret leaks. Please shorten your commits next time!"
            else
              "Jambo! I had issues checking commit " ++ commit.SHA ++
                " for secret leaks. Please contact my developers for more assistance! Error Message:\n " ++
                env.errorText result ++ "\nResponse: " ++ result)]) ++ later := by
  have hrun : CheckSecretKeyLeakage r env =
      scanCommits r env
        (trace ++ [Event.getCommit commit.SHA,
          Event.addRow (secretRequest r commit.SHA (getCommitDiff env trace commit.SHA).1),
          Event.comment r.number
            (if stringsContains result "ContextWindowExceededError" = true then
              "Jambo! It seems that commit " ++ commit.SHA ++
                " was too long to scan for secret leaks. Please shorten your commits next time!"
            else
              "Jambo! I had issues checking commit " ++ commit.SHA ++
                " for secret leaks. Please contact my developers for more assistance! Error Message:\n " ++
                env.errorText result ++ "\nResponse: " ++ result)]) rest := by
    rw [CheckSecretKeyLeakage_at r env pre rest commit trace hlist hreach]
    have hm : ¬ commit.Parents.length > 1 := by omega
    simp only [scanCommit, if_neg hm, hgen, hcollect, hparse, tooLongComment, failureComment,
      List.append_assoc, List.singleton_append, List.nil_append]
    by_cases hc : stringsContains result "ContextWindowExceededError" = true <;>
      simp only [hc, if_true, if_false] <;> rfl
  refine ⟨hrun, ?_⟩
  rw [hrun]
  exact scanCommits_trace_extends r env rest _

theorem CheckSecretKeyLeakage_parse_failure_witness :
    commentsOf (CheckSecretKeyLeakage sampleReview (envWith overflowBody)).trace =
        ["Jambo! It seems that commit abc123 was too long to scan for secret leaks. Please shorten your commits next time!",
         "Jambo! It seems that commit ccc333 was too long to scan for secret leaks. Please shorten your commits next time!"] ∧
      commentsOf (CheckSecretKeyLeakage sampleReview (envWith garbledBody)).trace =
        ["Jambo! I had issues checking commit abc123 for secret leaks. Please contact my developers for more assistance! Error Message:\n invalid character 'o' in literal null (expecting 'u')\nResponse: not json",
         "Jambo! I had issues checking commit ccc333 for secret leaks. Please contact my developers for more assistance! Error Message:\n invalid character 'o' in literal null (expecting 'u')\nResponse: not json"] ∧
      CheckSecretKeyLeakage sampleReview (envWith overflowBody) =
        scanCommits sampleReview (envWith overflowBody)
          ([] ++ [Event.getCommit commitA.SHA,
            Event.addRow (secretRequest sampleReview commitA.SHA
              (getCommitDiff (envWith overflowBody) [] commitA.SHA).1),
            Event.comment sampleReview.number
              (if stringsContains "ContextWindowExceededError: too long"
                  "ContextWindowExceededError" = true then
                "Jambo! It seems that commit " ++ commitA.SHA ++
                  " was too long to scan for secret leaks. Please shorten your commits next time!"
              else
                "Jambo! I had issues checking commit " ++ commitA.SHA ++
                  " for secret leaks. Please contact my developers for more assistance! Error Message:\n " ++
                  (envWith overflowBody).errorText "ContextWindowExceededError: too long" ++
                  "\nResponse: " ++ "ContextWindowExceededError: too long")])
          [commitB, commitC] ∧
      CheckSecretKeyLeakage sampleReview (envWith garbledBody) =
        scanCommits sampleReview (envWith garbledBody)
          ([] ++ [Event.getCommit commitA.SHA,
            Event.addRow (secretRequest sampleReview commitA.SHA
              (getCommitDiff (envWith garbledBody) [] commitA.SHA).1),
            Event.comment sampleReview.number
              (if stringsContains "not json" "ContextWindowExceededError" = true then
                "Jambo! It seems that commit " ++ commitA.SHA ++
                  " was too long to scan for secret leaks. Please shorten your commits next time!"
              else
                "Jambo! I had issues checking commit " ++ commitA.SHA ++
                  " for secret leaks. Please contact my developers for more assistance! Error Message:\n " ++
                  (envWith garbledBody).errorText "not json" ++
                  "\nResponse: " ++ "not json")])
          [commitB, commitC] :=
  ⟨by decide, by decide,
    (CheckSecretKeyLeakage_parse_failure sampleReview (envWith overflowBody) []
      [commitB, commitC] commitA [] { StatusCode := 200, Body := overflowBody }
      "ContextWindowExceededError: too long" CreatePullReqSecretResponse.zero
      JsonError.syntaxError rfl rfl (by decide) rfl (by decide) (by decide)).1,
    (CheckSecretKeyLeakage_parse_failure sampleReview (envWith garbledBody) []
      [commitB, commitC] commitA [] { StatusCode := 200, Body := garbledBody }
      "not json" CreatePullReqSecretResponse.zero
      JsonError.syntaxError rfl rfl (by decide) rfl (by decide) (by decide)).1⟩

/-- C9 (as the code has it): when the loop reaches a commit with at most one
parent and the generation call fails, or its stream fails to collect, the run
ends there with the process terminated: the request for that commit is the
last event, no comment is posted for it and no later commit is visited. -/
theorem CheckSecretKeyLeakage_failure_is_fatal (r : Review) (env : Env)
    (pre rest : List RepositoryCommit) (commit : RepositoryCommit) (trace : List Event)
    (hlist : env.listCommits = Except.ok (pre ++ commit :: rest))
    (hreach : scanCommits r env [] pre = { trace := trace, exit := Exit.returned })
    (hscan : commit.Parents.length ≤ 1)
    (hfail : (∃ cause, AddRow env (trace ++ [Event.getCommit commit.SHA]) r.actionTable
          (tableIdOf r) [("PullReqSecretsBody",
            secretPrompt commit.SHA (getCommitDiff env trace commit.SHA).1)] =
          Except.error cause) ∨
        (∃ resp cause, AddRow env (trace ++ [Event.getCommit commit.SHA]) r.actionTable
          (tableIdOf r) [("PullReqSecretsBody",
            secretPrompt commit.SHA (getCommitDiff env trace commit.SHA).1)] =
          Except.ok resp ∧
          (readAndCollectContent resp.Body "SecretsJSONResponse").2 = some cause)) :
    ∃ x, x ≠ Exit.returned ∧
      CheckSecretKeyLeakage r env =
        { trace := trace ++ [Event.getCommit commit.SHA,
            Event.addRow (secretRequest r commit.SHA (getCommitDiff env trace commit.SHA).1)],
          exit := x } := by
  rw [CheckSecretKeyLeakage_at r env pre rest commit trace hlist hreach]
  have hm : ¬ commit.Parents.length > 1 := by omega
  rcases hfail with ⟨cause, hgen⟩ | ⟨resp, cause, hgen, hcollect⟩
  · refine ⟨Exit.fatalAddRow cause, by simp, ?_⟩
    simp only [scanCommit, if_neg hm, hgen, List.append_assoc, List.singleton_append,
      List.nil_append]
  · refine ⟨Exit.fatalCollect cause, by simp, ?_⟩
    cases hrc : readAndCollectContent resp.Body "SecretsJSONResponse" with
    | mk text e =>
        rw [hrc] at hcollect
        simp only at hcollect
        subst hcollect
        simp only [scanCommit, if_neg hm, hgen, hrc, List.append_assoc, List.singleton_append,
          List.nil_append]

theorem CheckSecretKeyLeakage_failure_is_fatal_witness :
    ∃ x, x ≠ Exit.returned ∧
      CheckSecretKeyLeakage sampleReview envDown =
        { trace := [] ++ [Event.getCommit commitA.SHA,
            Event.addRow (secretRequest sampleReview commitA.SHA
              (getCommitDiff envDown [] commitA.SHA).1)],
          exit := x } :=
  CheckSecretKeyLeakage_failure_is_fatal sampleReview envDown [] [commitB, commitC] commitA []
    rfl rfl (by decide) (Or.inl ⟨SendError.sending "connection refused", rfl⟩)

/-- C9 (as stated) fails: with the commits A, B (a merge) and C and a service
that refuses every call, the run ends the process at A; C, a later commit
with one parent, is never fetched and no request is made for it. -/
theorem CheckSecretKeyLeakage_failure_not_confined :
    (CheckSecretKeyLeakage sampleReview envDown).exit =
        Exit.fatalAddRow (SendError.sending "connection refused") ∧
      isScanned commitC = true ∧
      Event.getCommit commitC.SHA ∉ (CheckSecretKeyLeakage sampleReview envDown).trace ∧
      requestsOf (CheckSecretKeyLeakage sampleReview envDown).trace =
        [secretRequest sampleReview "abc123" "File: main.go\n+key\n"] := by
  decide

/-! ## Claims on `parseCreatePrSecretResponse` -/

theorem storeMember_error (st : CreatePullReqSecretResponse × Option JsonError)
    (m : String × JValue) :
    (storeMember st m).2 = none ↔ st.2 = none ∧ memberAccepted m = true := by
  unfold storeMember memberAccepted
  cases hf : fieldFor m.1 with
  | none => simp
  | some f =>
      cases f <;> cases hv : m.2 <;> cases hs : st.2 <;>
        simp [SecretField.accepts, hs]

theorem foldl_storeMember_error (ms : List (String × JValue)) :
    ∀ (st : CreatePullReqSecretResponse × Option JsonError),
      (ms.foldl storeMember st).2 = none ↔ st.2 = none ∧ ms.all memberAccepted = true := by
  induction ms with
  | nil =>
      intro st
      simp
  | cons m rest ih =>
      intro st
      rw [List.foldl_cons, ih (storeMember st m), storeMember_error]
      simp [and_assoc]

theorem storeMember_keeps (st : CreatePullReqSecretResponse × Option JsonError)
    (m : String × JValue) :
    (fieldFor m.1 ≠ some SecretField.leak → (storeMember st m).1.Leak = st.1.Leak) ∧
      (fieldFor m.1 ≠ some SecretField.commit → (storeMember st m).1.Commit = st.1.Commit) ∧
      (fieldFor m.1 ≠ some SecretField.response →
        (storeMember st m).1.Response = st.1.Response) := by
  unfold storeMember
  cases hf : fieldFor m.1 with
  | none => simp
  | some f => cases f <;> cases hv : m.2 <;> simp

theorem foldl_storeMember_keeps (ms : List (String × JValue)) :
    ∀ (st : CreatePullReqSecretResponse × Option JsonError),
      ((∀ m ∈ ms, fieldFor m.1 ≠ some SecretField.leak) →
        (ms.foldl storeMember st).1.Leak = st.1.Leak) ∧
      ((∀ m ∈ ms, fieldFor m.1 ≠ some SecretField.commit) →
        (ms.foldl storeMember st).1.Commit = st.1.Commit) ∧
      ((∀ m ∈ ms, fieldFor m.1 ≠ some SecretField.response) →
        (ms.foldl storeMember st).1.Response = st.1.Response) := by
  induction ms with
  | nil =>
      intro st
      simp
  | cons m rest ih =>
      intro st
      obtain ⟨h1, h2, h3⟩ := ih (storeMember st m)
      obtain ⟨k1, k2, k3⟩ := storeMember_keeps st m
      refine ⟨fun h => ?_, fun h => ?_, fun h => ?_⟩
      · rw [List.foldl_cons, h1 (fun x hx => h x (List.mem_cons_of_mem m hx)),
          k1 (h m (List.mem_cons_self m rest))]
      · rw [List.foldl_cons, h2 (fun x hx => h x (List.mem_cons_of_mem m hx)),
          k2 (h m (List.mem_cons_self m rest))]
      · rw [List.foldl_cons, h3 (fun x hx => h x (List.mem_cons_of_mem m hx)),
          k3 (h m (List.mem_cons_self m rest))]

/-- C10 (as the code has it): `parseCreatePrSecretResponse` returns no error
exactly for the texts that are valid JSON and either `null` or an object in
which every member whose key names `leak`, `commit` or `response` (letter case
aside) is `null` or of the field's type, a boolean for `leak` and a string for
the other two; members with other keys are ignored.  A field that no member
of the object names is not an error: it keeps its zero value, false for
`leak` and the empty string for `commit` and `response`. -/
theorem parseCreatePrSecretResponse_succeeds_iff (content : String) :
    ((parseCreatePrSecretResponse content).2 = none ↔ lenientSecretShape content = true) ∧
      ∀ ms, parseJSON content = some (JValue.object ms) →
        ((∀ m ∈ ms, fieldFor m.1 ≠ some SecretField.leak) →
          (parseCreatePrSecretResponse content).1.Leak = false) ∧
        ((∀ m ∈ ms, fieldFor m.1 ≠ some SecretField.commit) →
          (parseCreatePrSecretResponse content).1.Commit = "") ∧
        ((∀ m ∈ ms, fieldFor m.1 ≠ some SecretField.response) →
          (parseCreatePrSecretResponse content).1.Response = "") := by
  have hp : parseCreatePrSecretResponse content = unmarshalSecretResponse content := by
    unfold parseCreatePrSecretResponse
    split <;> rename_i h <;> rw [h]
  rw [hp]
  constructor
  · unfold unmarshalSecretResponse lenientSecretShape
    cases hj : parseJSON content with
    | none => simp
    | some v =>
        cases v with
        | null => simp
        | object ms =>
            simp only [foldl_storeMember_error]
            simp
        | bool b => simp
        | number l => simp
        | string s => simp
        | array xs => simp
  · intro ms hms
    unfold unmarshalSecretResponse
    simp only [hms]
    exact foldl_storeMember_keeps ms (CreatePullReqSecretResponse.zero, none)

theorem parseCreatePrSecretResponse_succeeds_iff_witness :
    (parseCreatePrSecretResponse "\x7b\"leak\":true\x7d").2 = none ∧
      (parseCreatePrSecretResponse "\x7b\"leak\":true\x7d").1.Response = "" :=
  ⟨(parseCreatePrSecretResponse_succeeds_iff "\x7b\"leak\":true\x7d").1.mpr (by decide),
    ((parseCreatePrSecretResponse_succeeds_iff "\x7b\"leak\":true\x7d").2
      [("leak", JValue.bool true)] rfl).2.2 (by decide)⟩

/-- C10 (as stated) fails: the empty object has neither `leak` nor `response`,
yet it parses without error to a verdict whose fields hold their zero values;
so do `null` and an object with only `leak`. -/
theorem parseCreatePrSecretResponse_defaults :
    strictSecretShape "\x7b\x7d" = false ∧
      parseCreatePrSecretResponse "\x7b\x7d" =
        ({ Leak := false, Commit := "", Response := "" }, none) ∧
      parseCreatePrSecretResponse "null" =
        ({ Leak := false, Commit := "", Response := "" }, none) ∧
      parseCreatePrSecretResponse "\x7b\"leak\":true\x7d" =
        ({ Leak := true, Commit := "", Response := "" }, none) := by
  decide

/-! ## Claim on a failed diff fetch -/

theorem changesOfFiles_eq (files : List CommitFile) :
    changesOfFiles files = concatAll (files.map fileSection) := by
  induction files with
  | nil => rfl
  | cons file rest ih =>
      rw [changesOfFiles, List.map_cons, concatAll, ih]
      rfl

/-- The prompt is the same text in both branches of the source. -/
theorem changelogPrompt_eq (files : List CommitFile) :
    changelogPrompt files = specChangelogPrompt files := by
  unfold changelogPrompt specChangelogPrompt
  rw [changesOfFiles_eq]
  split <;> rfl

/-- C12: when the changed files are listed, the generation call is answered
with status 200 or 409 and the stream collects without error,
`CheckChangelogUpdated` sends one request: a POST to the rows-add address of
the action table, for the table `owner_repo_version`, asking for a stream,
with one row whose single field `PullReqBody` is the fixed instruction
followed by the section `File: <name>`, line break, `Changes: <patch>`, two
line breaks, of every changed file in order.  It then posts exactly one
comment, whose body is the text collected for the column `PullReqResponse`,
and returns.  The prompt is that same text whether or not `CHANGELOG.md` is
among the files. -/
theorem CheckChangelogUpdated_posts_suggestions (r : Review) (env : Env)
    (files : List CommitFile) (resp : HttpResponse) (suggestions : String)
    (hfiles : env.listFiles = Except.ok files)
    (hdo : env.httpDo []
      { url := "https://api.jamaibase.com/api/v1/gen_tables" ++ "/" ++ r.actionTable ++
          "/rows/add",
        TableID := r.owner ++ "_" ++ r.repo ++ "_" ++ r.botVersion,
        Data := [[("PullReqBody",
          "Remind the user to update their CHANGELOG.md file. Please provide suggestions for the changelog based on the following changes:\n\n" ++
            concatAll (files.map (fun file =>
              ("File: " ++ file.Filename ++ "\n") ++
                ("Changes: " ++ file.GetPatch ++ "\n\n"))))]],
        Stream := true } = Except.ok resp)
    (hstatus : resp.StatusCode = 200 ∨ resp.StatusCode = 409)
    (hcollect : readAndCollectContent resp.Body "PullReqResponse" = (suggestions, none)) :
    CheckChangelogUpdated r env =
      { trace :=
          [Event.addRow
      { url := "https://api.jamaibase.com/api/v1/gen_tables" ++ "/" ++ r.actionTable ++
          "/rows/add",
        TableID := r.owner ++ "_" ++ r.repo ++ "_" ++ r.botVersion,
        Data := [[("PullReqBody",
          "Remind the user to update their CHANGELOG.md file. Please provide suggestions for the changelog based on the following changes:\n\n" ++
            concatAll (files.map (fun file =>
              ("File: " ++ file.Filename ++ "\n") ++
                ("Changes: " ++ file.GetPatch ++ "\n\n"))))]],
        Stream := true },
           Event.comment r.number suggestions],
        exit := Exit.returned } ∧
      commentsOf (CheckChangelogUpdated r env).trace = [suggestions] ∧
      changelogPrompt files =
        "Remind the user to update their CHANGELOG.md file. Please provide suggestions for the changelog based on the following changes:\n\n" ++
          concatAll (files.map (fun file =>
            ("File: " ++ file.Filename ++ "\n") ++ ("Changes: " ++ file.GetPatch ++ "\n\n"))) := by
  have hreq : addRowRequest r.actionTable (tableIdOf r)
      [("PullReqBody", specChangelogPrompt files)] =
      { url := "https://api.jamaibase.com/api/v1/gen_tables" ++ "/" ++ r.actionTable ++
          "/rows/add",
        TableID := r.owner ++ "_" ++ r.repo ++ "_" ++ r.botVersion,
        Data := [[("PullReqBody",
          "Remind the user to update their CHANGELOG.md file. Please provide suggestions for the changelog based on the following changes:\n\n" ++
            concatAll (files.map (fun file =>
              ("File: " ++ file.Filename ++ "\n") ++
                ("Changes: " ++ file.GetPatch ++ "\n\n"))))]],
        Stream := true } := rfl
  have hgen : AddRow env [] r.actionTable (tableIdOf r)
      [("PullReqBody", specChangelogPrompt files)] = Except.ok resp := by
    have hst : ¬ (resp.StatusCode ≠ 200 ∧ resp.StatusCode ≠ 409) := by
      rcases hstatus with h1 | h1 <;> simp [h1]
    unfold AddRow sendRequest
    rw [hreq, hdo]
    simp only [if_neg hst]
  have hrun : CheckChangelogUpdated r env =
      { trace :=
          [Event.addRow
      { url := "https://api.jamaibase.com/api/v1/gen_tables" ++ "/" ++ r.actionTable ++
          "/rows/add",
        TableID := r.owner ++ "_" ++ r.repo ++ "_" ++ r.botVersion,
        Data := [[("PullReqBody",
          "Remind the user to update their CHANGELOG.md file. Please provide suggestions for the changelog based on the following changes:\n\n" ++
            concatAll (files.map (fun file =>
              ("File: " ++ file.Filename ++ "\n") ++
                ("Changes: " ++ file.GetPatch ++ "\n\n"))))]],
        Stream := true },
           Event.comment r.number suggestions],
        exit := Exit.returned } := by
    unfold CheckChangelogUpdated
    simp only [hfiles, changelogPrompt_eq, hgen, hcollect]
    rfl
  refine ⟨hrun, ?_, changelogPrompt_eq files⟩
  rw [hrun]
  rfl

theorem CheckChangelogUpdated_posts_suggestions_witness :
    (CheckChangelogUpdated sampleReview (envFiles filesWithChangelog) =
        { trace := [Event.addRow
              { url := "https://api.jamaibase.com/api/v1/gen_tables/action/rows/add"
                TableID := "acme_widgets_v1",
                Data := [[("PullReqBody",
                  "Remind the user to update their CHANGELOG.md file. Please provide suggestions for the changelog based on the following changes:\n\nFile: CHANGELOG.md\nChanges: +fixed\n\nFile: logo.png\nChanges: \n\n")]],
                Stream := true },
            Event.comment 7 "Add an entry."],
          exit := Exit.returned }) ∧
      commentsOf (CheckChangelogUpdated sampleReview (envFiles filesWithoutChangelog)).trace =
        ["Add an entry."] ∧
      changelogPrompt filesWithoutChangelog =
        "Remind the user to update their CHANGELOG.md file. Please provide suggestions for the changelog based on the following changes:\n\nFile: main.go\nChanges: +key\n\n" :=
  ⟨by
      rw [(CheckChangelogUpdated_posts_suggestions sampleReview (envFiles filesWithChangelog)
        filesWithChangelog { StatusCode := 200, Body := suggestionBody } "Add an entry."
        rfl rfl (Or.inl rfl) (by decide)).1]
      decide,
    (CheckChangelogUpdated_posts_suggestions sampleReview (envFiles filesWithoutChangelog)
      filesWithoutChangelog { StatusCode := 200, Body := suggestionBody } "Add an entry."
      rfl rfl (Or.inl rfl) (by decide)).2.1,
    by decide⟩

end GithubBot
